import Mathlib

/-!
# zap-aliyun-log: field encoder and record adapter

A shallow embedding of `encoder.go` (the `AliYunEncoder`, a zapcore object
encoder that accumulates a flat `map[string]string`) and `core.go` (the
`AliYunCore`, a zapcore core that ships the flat map to an Aliyun log
producer), followed by theorems about them.

Modelling conventions.

* Go strings are Lean strings. Byte lengths and byte slices of a buffer are
  `String.utf8ByteSize` and `String.extract`, which count bytes as Go does.
* A Go `map[string]string` is a reference to a mutable object. The maps live
  in a `Heap` (a list of cells, a reference is an index) and every encoder
  method that writes `a.m[key] = value` is a heap update, so that sharing
  between an encoder and its clones is visible to the theorems.
* A map value is an association list `FieldMap`; `FieldMap.lookup` is the Go
  read `m[key]`, `FieldMap.insert` the Go write. Go leaves the iteration order
  of a map unspecified; the model iterates in list order and the theorems are
  stated on lookups, key counts and permutations only.
* An `error` is modelled by its message.
* Library routines that are called by the repository but are not part of it
  (strconv float formatting, RFC3339 time formatting) are fields of `Runtime`.
-/

namespace ZapAliyun

/-! ## Flat maps and the heap of maps -/

/-- The content of a Go `map[string]string`. -/
abbrev FieldMap := List (String × String)

/-- Go `m[key]` (with the presence flag). -/
def FieldMap.lookup (k : String) : FieldMap → Option String
  | [] => none
  | (k', v) :: t => if k' = k then some v else FieldMap.lookup k t

/-- Removal of every binding of `k`. -/
def FieldMap.erase (k : String) : FieldMap → FieldMap
  | [] => []
  | (k', v) :: t => if k' = k then FieldMap.erase k t else (k', v) :: FieldMap.erase k t

/-- Go `m[key] = value`: the key is bound to the new value, once. -/
def FieldMap.insert (k v : String) (m : FieldMap) : FieldMap :=
  (k, v) :: FieldMap.erase k m

/-- The keys of a map, in the order the model iterates. -/
def FieldMap.keys (m : FieldMap) : List String := m.map Prod.fst

/-- A reference to a Go map: the index of its cell in the heap. -/
abbrev MapPtr := Nat

/-- The maps allocated so far. -/
abbrev Heap := List FieldMap

/-- The content of the map behind a reference. -/
def Heap.read (h : Heap) (p : MapPtr) : FieldMap := h.getD p []

/-- In-place update of the map behind a reference. -/
def Heap.write (h : Heap) (p : MapPtr) (m : FieldMap) : Heap := h.set p m

/-- Allocation of a new map with the given content (`make` followed by writes). -/
def Heap.alloc (h : Heap) (m : FieldMap) : MapPtr × Heap := (h.length, h ++ [m])

/-! ## Values of the host framework -/

/-- A `zapcore.Level` (an int8): debug = -1, info = 0, ..., fatal = 5. -/
abbrev Level := Int

def DebugLevel : Level := -1
def InfoLevel : Level := 0
def WarnLevel : Level := 1
def ErrorLevel : Level := 2
def DPanicLevel : Level := 3
def PanicLevel : Level := 4
def FatalLevel : Level := 5

/-- Decimal text of a signed integer, as `strconv.AppendInt(_, v, 10)` writes it. -/
def formatInt (v : Int) : String :=
  match v with
  | Int.ofNat n => Nat.repr n
  | Int.negSucc n => "-" ++ Nat.repr (n + 1)

/-- Decimal text of an unsigned integer, as `strconv.AppendUint(_, v, 10)` writes it. -/
def formatUint (v : Nat) : String := Nat.repr v

/-- The method `zapcore.Level.String`. -/
def Level.String (l : Level) : String :=
  if l = DebugLevel then "debug"
  else if l = InfoLevel then "info"
  else if l = WarnLevel then "warn"
  else if l = ErrorLevel then "error"
  else if l = DPanicLevel then "dpanic"
  else if l = PanicLevel then "panic"
  else if l = FatalLevel then "fatal"
  else "Level(" ++ formatInt l ++ ")"

/-- A `time.Time`: an instant and the zone offset it is rendered in. -/
structure Time where
  unixNano : Int
  zoneOffset : Int
  deriving DecidableEq

/-- A `zapcore.EntryCaller`. -/
structure EntryCaller where
  Defined : Bool
  PC : Nat
  File : String
  Line : Int
  Function : String
  deriving DecidableEq

/-- A `zapcore.Entry`. -/
structure Entry where
  Level : Level
  Time : Time
  LoggerName : String
  Message : String
  Caller : EntryCaller
  Stack : String
  deriving DecidableEq

/-! ## Floating point values -/

/-- A float64 by the three fields of its IEEE 754 bit pattern. -/
structure Float64 where
  sign : Bool
  exp : Nat
  frac : Nat
  deriving DecidableEq

/-- A float32 by the three fields of its IEEE 754 bit pattern. -/
structure Float32 where
  sign : Bool
  exp : Nat
  frac : Nat
  deriving DecidableEq

/-- Go `math.Float64frombits`. -/
def Float64.ofBits (b : Nat) : Float64 :=
  { sign := decide (b / 2 ^ 63 % 2 = 1), exp := b / 2 ^ 52 % 2048, frac := b % 2 ^ 52 }

/-- Go `math.Float32frombits`. -/
def Float32.ofBits (b : Nat) : Float32 :=
  { sign := decide (b / 2 ^ 31 % 2 = 1), exp := b / 2 ^ 23 % 256, frac := b % 2 ^ 23 }

/-- Go `math.IsNaN`. -/
def Float64.IsNaN (f : Float64) : Bool := decide (f.exp = 2047) && decide (f.frac ≠ 0)

/-- Go `math.IsInf(f, sign)` for `sign = 1` (`positive = true`) and `sign = -1`. -/
def Float64.IsInf (f : Float64) (positive : Bool) : Bool :=
  decide (f.exp = 2047) && decide (f.frac = 0) && (f.sign != positive)

/-- The float is one of the two zeros. -/
def Float64.isZero (f : Float64) : Bool := decide (f.exp = 0) && decide (f.frac = 0)

/-- Go `f >= 0`: false for a NaN, true for both zeros. -/
def Float64.geZero (f : Float64) : Bool := !f.IsNaN && (!f.sign || f.isZero)

/-- Go `f < 0`: false for a NaN and for both zeros. -/
def Float64.ltZero (f : Float64) : Bool := !f.IsNaN && f.sign && !f.isZero

/-- The float32 is a NaN. -/
def Float32.IsNaN (f : Float32) : Bool := decide (f.exp = 255) && decide (f.frac ≠ 0)

/-- The float32 is the infinity of the given sign. -/
def Float32.IsInf (f : Float32) (positive : Bool) : Bool :=
  decide (f.exp = 255) && decide (f.frac = 0) && (f.sign != positive)

/-- The Go conversion `float64(value)` of a float32 (exact; a NaN is quieted). -/
def Float32.toFloat64 (f : Float32) : Float64 :=
  if f.exp = 255 then
    { sign := f.sign, exp := 2047,
      frac := if f.frac = 0 then 0 else f.frac % 2 ^ 22 * 2 ^ 29 + 2 ^ 51 }
  else if f.exp = 0 then
    if f.frac = 0 then { sign := f.sign, exp := 0, frac := 0 }
    else
      let p := Nat.log2 f.frac
      { sign := f.sign, exp := p + 874, frac := (f.frac - 2 ^ p) * 2 ^ (52 - p) }
  else { sign := f.sign, exp := f.exp + 896, frac := f.frac * 2 ^ 29 }

/-- A complex128: real and imaginary part. -/
structure Complex128 where
  re : Float64
  im : Float64
  deriving DecidableEq

/-- A complex64: real and imaginary part. -/
structure Complex64 where
  re : Float32
  im : Float32
  deriving DecidableEq

/-- The Go conversion `complex128(value)` of a complex64. -/
def Complex64.toComplex128 (c : Complex64) : Complex128 :=
  { re := c.re.toFloat64, im := c.im.toFloat64 }

/-- The library routines the encoder calls. -/
structure Runtime where
  /-- The call `buffer.AppendFloat(f, bitSize)`, i.e. strconv.AppendFloat(_, f, 'f', -1, bitSize). -/
  appendFloat : Float64 → Nat → String
  /-- The call `buffer.AppendTime(t, time.RFC3339)`. -/
  appendTime : Time → String
  /-- The width in bits of `uint` and `uintptr` on the platform. -/
  wordBits : Nat

/-- The Go conversion of an integer to the signed type of the given width: two-complement wrap. -/
def wrapSigned (bits : Nat) (v : Int) : Int :=
  let r := v % (2 : Int) ^ bits
  if r < (2 : Int) ^ (bits - 1) then r else r - (2 : Int) ^ bits

/-- The Go conversion of an integer to the unsigned type of the given width. -/
def wrapUnsigned (bits : Nat) (v : Int) : Nat := (v % (2 : Int) ^ bits).toNat

/-! ## Standard base64 (`base64.StdEncoding`) -/

/-- The standard base64 alphabet. -/
def base64Alphabet : List Char :=
  "ABCDEFGHIJKLMNOPQRSTUVWXYZabcdefghijklmnopqrstuvwxyz0123456789+/".data

/-- The character of a 6-bit group. -/
def base64Char (n : Nat) : Char := base64Alphabet.getD (n % 64) 'A'

/-- Padded standard base64 of a byte sequence (each element is taken modulo 256). -/
def base64Encode : List Nat → List Char
  | a :: b :: c :: rest =>
    let n := a % 256 * 65536 + b % 256 * 256 + c % 256
    base64Char (n / 262144) :: base64Char (n / 4096) :: base64Char (n / 64) :: base64Char n
      :: base64Encode rest
  | [a, b] =>
    let n := a % 256 * 65536 + b % 256 * 256
    [base64Char (n / 262144), base64Char (n / 4096), base64Char (n / 64), '=']
  | [a] =>
    let n := a % 256 * 65536
    [base64Char (n / 262144), base64Char (n / 4096), '=', '=']
  | [] => []

/-- The call `base64.StdEncoding.EncodeToString`. -/
def EncodeToString (value : List Nat) : String := ⟨base64Encode value⟩

/-! ## The throwaway JSON encoder of zapcore

`newJSONEncoder` builds a `zapcore.NewJSONEncoder` with every standard key
disabled. Only the part of that encoder that `MarshalLogArray` and
`MarshalLogObject` drive is modelled: one `AddArray`/`AddObject` under a key on
a fresh encoder, followed by `EncodeEntry` on the empty entry with no fields. -/

/-- The part of `zapcore.EncoderConfig` that `newJSONEncoder` sets; the key names are all empty. -/
structure JSONEncoderConfig where
  EncodeTime : Option (Time → String)
  EncodeDuration : Option (Int → String)

/-- A `zapcore.ObjectMarshaler`, described by what the JSON encoder of zapcore appends for it
(`AppendObject`: an opening brace, the members the marshaler adds, a closing brace), or by the
error the marshaler returns. -/
abbrev ObjectMarshaler := JSONEncoderConfig → Except String String

/-- A `zapcore.ArrayMarshaler`, described by what the JSON encoder of zapcore appends for it
(`AppendArray`: an opening bracket, the elements, a closing bracket), or by the error. -/
abbrev ArrayMarshaler := JSONEncoderConfig → Except String String

/-- The JSON encoder of zapcore: its configuration and the bytes buffered so far. -/
structure jsonEncoder where
  cfg : JSONEncoderConfig
  buf : String

/-- The default line ending of zapcore (`zapcore.DefaultLineEnding`). -/
def DefaultLineEnding : String := "\n"

/-- The method `addElementSeparator` of the JSON encoder on a buffer: a comma unless the buffer
is empty or ends in an opening brace, opening bracket, colon, comma or space. -/
def jsonEncoder.addElementSeparator (buf : String) : String :=
  match buf.data.getLast? with
  | none => buf
  | some c =>
    if c = Char.ofNat 123 ∨ c = '[' ∨ c = ':' ∨ c = ',' ∨ c = ' ' then buf else buf ++ ","

/-- The method `addKey` of the JSON encoder (the key is written as it is, which is what
escaping does to the empty key used here). -/
def jsonEncoder.addKey (en : jsonEncoder) (key : String) : jsonEncoder :=
  { en with buf := jsonEncoder.addElementSeparator en.buf ++ "\"" ++ key ++ "\":" }

/-- The method `AddObject` of the JSON encoder. -/
def jsonEncoder.AddObject (en : jsonEncoder) (key : String) (marshaler : ObjectMarshaler) :
    Except String jsonEncoder :=
  let en1 := en.addKey key
  match marshaler en1.cfg with
  | .error err => .error err
  | .ok text => .ok { en1 with buf := jsonEncoder.addElementSeparator en1.buf ++ text }

/-- The method `AddArray` of the JSON encoder. -/
def jsonEncoder.AddArray (en : jsonEncoder) (key : String) (marshaler : ArrayMarshaler) :
    Except String jsonEncoder :=
  let en1 := en.addKey key
  match marshaler en1.cfg with
  | .error err => .error err
  | .ok text => .ok { en1 with buf := jsonEncoder.addElementSeparator en1.buf ++ text }

/-- The method `EncodeEntry` of the JSON encoder for the empty entry and no fields, all standard
keys being disabled: an opening brace, the buffered members, a closing brace, the line ending. -/
def jsonEncoder.EncodeEntry (en : jsonEncoder) : Except String String :=
  let final := "\x7b"
  let final := if en.buf.utf8ByteSize > 0 then jsonEncoder.addElementSeparator final ++ en.buf
    else final
  .ok (final ++ "\x7d" ++ DefaultLineEnding)

/-- The method `TrimNewline` of a zap buffer. -/
def TrimNewline (bs : String) : String :=
  match bs.data.getLast? with
  | none => bs
  | some c => if c = '\n' then ⟨bs.data.dropLast⟩ else bs

/-- An empty-interface value handed to `AddReflected`: nil, or a value described by what
`json.Encoder.Encode` (HTML escaping off) does with it: the text it writes, which ends in a line
feed, or the error it returns. -/
inductive Reflected where
  | null
  | value (encode : Except String String)

/-! ## The field encoder (`encoder.go`) -/

/-- The struct `EncoderConfig`: key names (empty: the portion is omitted) and formatters. -/
structure EncoderConfig where
  MessageKey : String
  LevelKey : String
  TimeKey : String
  NameKey : String
  CallerKey : String
  FunctionKey : String
  StacktraceKey : String
  EncodeLevel : Option (Level → String)
  EncodeTime : Option (Time → String)
  EncodeDuration : Option (Int → String)
  EncodeCaller : Option (EntryCaller → String)
  EncodeName : Option (String → String)

/-- The struct `AliYunEncoder`: the shared configuration and the reference to the field map.
The reflection scratch buffer is reset before each use and read right after it, so it carries
nothing from one call to the next and is left out. -/
structure AliYunEncoder where
  cfg : EncoderConfig
  m : MapPtr

/-- The constructor `NewAliYunEncoder`: a fresh empty map and the given configuration. -/
def NewAliYunEncoder (config : EncoderConfig) (h : Heap) : AliYunEncoder × Heap :=
  let r := Heap.alloc h []
  ({ cfg := config, m := r.1 }, r.2)

/-- The literal `nullLiteralBytes`. -/
def nullLiteralBytes : String := "null"

/-- The method `newJSONEncoder`: every key is empty, the time and duration formatters are
forwarded when they are set. -/
def AliYunEncoder.newJSONEncoder (a : AliYunEncoder) : jsonEncoder :=
  { cfg := { EncodeTime := a.cfg.EncodeTime, EncodeDuration := a.cfg.EncodeDuration }, buf := "" }

/-- The method `MarshalLogArray`. -/
def AliYunEncoder.MarshalLogArray (a : AliYunEncoder) (marshaler : ArrayMarshaler) :
    Except String String :=
  let en := a.newJSONEncoder
  match en.AddArray "" marshaler with
  | .error err => .error err
  | .ok en1 =>
    match en1.EncodeEntry with
    | .error err => .error err
    | .ok b =>
      if b.utf8ByteSize > 5 then .ok (b.extract ⟨4⟩ ⟨b.utf8ByteSize - 1⟩)
      else .ok b

/-- The method `MarshalLogObject`. -/
def AliYunEncoder.MarshalLogObject (a : AliYunEncoder) (marshaler : ObjectMarshaler) :
    Except String String :=
  let en := a.newJSONEncoder
  match en.AddObject "" marshaler with
  | .error err => .error err
  | .ok en1 =>
    match en1.EncodeEntry with
    | .error err => .error err
    | .ok b =>
      if b.utf8ByteSize > 5 then .ok (b.extract ⟨4⟩ ⟨b.utf8ByteSize - 1⟩)
      else .ok b

/-- The method `AddString`: the write `a.m[key] = value`. -/
def AliYunEncoder.AddString (a : AliYunEncoder) (key value : String) (h : Heap) : Heap :=
  h.write a.m (FieldMap.insert key value (h.read a.m))

/-- The method `AddArray`; the first component is the returned error. -/
def AliYunEncoder.AddArray (a : AliYunEncoder) (key : String) (marshaler : ArrayMarshaler)
    (h : Heap) : Option String × Heap :=
  match a.MarshalLogArray marshaler with
  | .error err => (some err, h)
  | .ok s => (none, a.AddString key s h)

/-- The method `AddObject`; the first component is the returned error. -/
def AliYunEncoder.AddObject (a : AliYunEncoder) (key : String) (marshaler : ObjectMarshaler)
    (h : Heap) : Option String × Heap :=
  match a.MarshalLogObject marshaler with
  | .error err => (some err, h)
  | .ok s => (none, a.AddString key s h)

/-- The method `AddBinary`. -/
def AliYunEncoder.AddBinary (a : AliYunEncoder) (key : String) (value : List Nat) (h : Heap) :
    Heap :=
  a.AddString key (EncodeToString value) h

/-- The method `AddByteString`. -/
def AliYunEncoder.AddByteString (a : AliYunEncoder) (key : String) (value : String) (h : Heap) :
    Heap :=
  a.AddString key value h

/-- The method `AddBool`. -/
def AliYunEncoder.AddBool (a : AliYunEncoder) (key : String) (value : Bool) (h : Heap) : Heap :=
  if value then a.AddString key "true" h else a.AddString key "false" h

/-- The method `AddComplex128`. -/
def AliYunEncoder.AddComplex128 (rt : Runtime) (a : AliYunEncoder) (key : String)
    (value : Complex128) (h : Heap) : Heap :=
  let r := value.re
  let i := value.im
  let buf := rt.appendFloat r 64
  let buf := if i.geZero then buf ++ "+" else buf
  let buf := buf ++ rt.appendFloat i 64
  let buf := buf ++ "i"
  a.AddString key buf h

/-- The method `AddComplex64`. -/
def AliYunEncoder.AddComplex64 (rt : Runtime) (a : AliYunEncoder) (key : String)
    (value : Complex64) (h : Heap) : Heap :=
  a.AddComplex128 rt key value.toComplex128 h

/-- The method `AddInt64`. -/
def AliYunEncoder.AddInt64 (a : AliYunEncoder) (key : String) (value : Int) (h : Heap) : Heap :=
  a.AddString key (formatInt value) h

/-- The method `AddDuration`; a duration is its int64 count of nanoseconds. -/
def AliYunEncoder.AddDuration (a : AliYunEncoder) (key : String) (value : Int) (h : Heap) :
    Heap :=
  a.AddInt64 key value h

/-- The method `formatFloat`. The three literals are Go raw strings that contain the double
quotes. -/
def AliYunEncoder.formatFloat (rt : Runtime) (_a : AliYunEncoder) (val : Float64)
    (bitSize : Nat) : String :=
  if val.IsNaN then "\"NaN\""
  else if val.IsInf true then "\"+Inf\""
  else if val.IsInf false then "\"-Inf\""
  else rt.appendFloat val bitSize

/-- The method `AddFloat64`. -/
def AliYunEncoder.AddFloat64 (rt : Runtime) (a : AliYunEncoder) (key : String) (value : Float64)
    (h : Heap) : Heap :=
  a.AddString key (a.formatFloat rt value 64) h

/-- The method `AddFloat32`. -/
def AliYunEncoder.AddFloat32 (rt : Runtime) (a : AliYunEncoder) (key : String) (value : Float32)
    (h : Heap) : Heap :=
  a.AddString key (a.formatFloat rt value.toFloat64 32) h

/-- How a call that can panic ends: it returns and leaves a heap, or it panics with a message
and the heap is as it was at that point. -/
inductive CallEnd where
  | returned (h : Heap)
  | panicked (msg : String) (h : Heap)

/-- The method `AddInt`: its whole body is `panic("implement me")`. -/
def AliYunEncoder.AddInt (_a : AliYunEncoder) (_key : String) (_value : Int) (h : Heap) :
    CallEnd :=
  .panicked "implement me" h

/-- The method `AddInt32`. -/
def AliYunEncoder.AddInt32 (a : AliYunEncoder) (key : String) (value : Int) (h : Heap) : Heap :=
  a.AddInt64 key value h

/-- The method `AddInt16`. -/
def AliYunEncoder.AddInt16 (a : AliYunEncoder) (key : String) (value : Int) (h : Heap) : Heap :=
  a.AddInt64 key value h

/-- The method `AddInt8`. -/
def AliYunEncoder.AddInt8 (a : AliYunEncoder) (key : String) (value : Int) (h : Heap) : Heap :=
  a.AddInt64 key value h

/-- The method `AddTime`. -/
def AliYunEncoder.AddTime (rt : Runtime) (a : AliYunEncoder) (key : String) (value : Time)
    (h : Heap) : Heap :=
  match a.cfg.EncodeTime with
  | some encodeTime => a.AddString key (encodeTime value) h
  | none => a.AddString key (rt.appendTime value) h

/-- The method `AddUint64`. -/
def AliYunEncoder.AddUint64 (a : AliYunEncoder) (key : String) (value : Nat) (h : Heap) : Heap :=
  a.AddString key (formatUint value) h

/-- The method `AddUint`. -/
def AliYunEncoder.AddUint (a : AliYunEncoder) (key : String) (value : Nat) (h : Heap) : Heap :=
  a.AddUint64 key value h

/-- The method `AddUint32`. -/
def AliYunEncoder.AddUint32 (a : AliYunEncoder) (key : String) (value : Nat) (h : Heap) : Heap :=
  a.AddUint64 key value h

/-- The method `AddUint16`. -/
def AliYunEncoder.AddUint16 (a : AliYunEncoder) (key : String) (value : Nat) (h : Heap) : Heap :=
  a.AddUint64 key value h

/-- The method `AddUint8`. -/
def AliYunEncoder.AddUint8 (a : AliYunEncoder) (key : String) (value : Nat) (h : Heap) : Heap :=
  a.AddUint64 key value h

/-- The method `AddUintptr`. -/
def AliYunEncoder.AddUintptr (a : AliYunEncoder) (key : String) (value : Nat) (h : Heap) :
    Heap :=
  a.AddUint64 key value h

/-- The method `encodeReflected`. -/
def AliYunEncoder.encodeReflected (_a : AliYunEncoder) (obj : Reflected) : Except String String :=
  match obj with
  | .null => .ok nullLiteralBytes
  | .value (.error err) => .error err
  | .value (.ok written) => .ok (TrimNewline written)

/-- The method `AddReflected`; the first component is the returned error. -/
def AliYunEncoder.AddReflected (a : AliYunEncoder) (key : String) (value : Reflected)
    (h : Heap) : Option String × Heap :=
  match a.encodeReflected value with
  | .error err => (some err, h)
  | .ok valueBytes => (none, a.AddString key valueBytes h)

/-- The method `OpenNamespace`: nothing happens. -/
def AliYunEncoder.OpenNamespace (_a : AliYunEncoder) (_key : String) (h : Heap) : Heap := h

/-- The method `cloneMap`: a new map filled by ranging over `a.m`. -/
def AliYunEncoder.cloneMap (a : AliYunEncoder) (h : Heap) : FieldMap :=
  (h.read a.m).foldl (fun m kv => FieldMap.insert kv.1 kv.2 m) []

/-- The method `clone`: same configuration, the map is a newly allocated copy. -/
def AliYunEncoder.clone (a : AliYunEncoder) (h : Heap) : AliYunEncoder × Heap :=
  let r := Heap.alloc h (a.cloneMap h)
  ({ cfg := a.cfg, m := r.1 }, r.2)

/-! ## Fields of the host framework (`zapcore.Field`) -/

/-- The type tag of a `zapcore.Field` together with the payload the constructors of zap store
for it. The tags that `AddTo` routes to a method of the encoder are covered (and `SkipType`);
both time tags carry the `time.Time` that `AddTo` hands to `AddTime`. -/
inductive FieldValue where
  | ArrayMarshalerType (v : ArrayMarshaler)
  | ObjectMarshalerType (v : ObjectMarshaler)
  | BinaryType (v : List Nat)
  | BoolType (Integer : Int)
  | ByteStringType (v : String)
  | Complex128Type (v : Complex128)
  | Complex64Type (v : Complex64)
  | DurationType (Integer : Int)
  | Float64Type (Integer : Int)
  | Float32Type (Integer : Int)
  | Int64Type (Integer : Int)
  | Int32Type (Integer : Int)
  | Int16Type (Integer : Int)
  | Int8Type (Integer : Int)
  | StringType (String : String)
  | TimeType (v : Time)
  | Uint64Type (Integer : Int)
  | Uint32Type (Integer : Int)
  | Uint16Type (Integer : Int)
  | Uint8Type (Integer : Int)
  | UintptrType (Integer : Int)
  | ReflectType (v : Reflected)
  | NamespaceType
  | SkipType

/-- A `zapcore.Field`. -/
structure Field where
  Key : String
  Value : FieldValue

/-- The encoder call that `zapcore.Field.AddTo` makes for the field; the first component is the
error of the call (nil for the calls that return none). -/
def Field.dispatch (rt : Runtime) (f : Field) (enc : AliYunEncoder) (h : Heap) :
    Option String × Heap :=
  match f.Value with
  | .ArrayMarshalerType v => enc.AddArray f.Key v h
  | .ObjectMarshalerType v => enc.AddObject f.Key v h
  | .BinaryType v => (none, enc.AddBinary f.Key v h)
  | .BoolType n => (none, enc.AddBool f.Key (decide (wrapSigned 64 n = 1)) h)
  | .ByteStringType v => (none, enc.AddByteString f.Key v h)
  | .Complex128Type v => (none, enc.AddComplex128 rt f.Key v h)
  | .Complex64Type v => (none, enc.AddComplex64 rt f.Key v h)
  | .DurationType n => (none, enc.AddDuration f.Key (wrapSigned 64 n) h)
  | .Float64Type n => (none, enc.AddFloat64 rt f.Key (Float64.ofBits (wrapUnsigned 64 n)) h)
  | .Float32Type n => (none, enc.AddFloat32 rt f.Key (Float32.ofBits (wrapUnsigned 32 n)) h)
  | .Int64Type n => (none, enc.AddInt64 f.Key (wrapSigned 64 n) h)
  | .Int32Type n => (none, enc.AddInt32 f.Key (wrapSigned 32 n) h)
  | .Int16Type n => (none, enc.AddInt16 f.Key (wrapSigned 16 n) h)
  | .Int8Type n => (none, enc.AddInt8 f.Key (wrapSigned 8 n) h)
  | .StringType v => (none, enc.AddString f.Key v h)
  | .TimeType v => (none, enc.AddTime rt f.Key v h)
  | .Uint64Type n => (none, enc.AddUint64 f.Key (wrapUnsigned 64 n) h)
  | .Uint32Type n => (none, enc.AddUint32 f.Key (wrapUnsigned 32 n) h)
  | .Uint16Type n => (none, enc.AddUint16 f.Key (wrapUnsigned 16 n) h)
  | .Uint8Type n => (none, enc.AddUint8 f.Key (wrapUnsigned 8 n) h)
  | .UintptrType n => (none, enc.AddUintptr f.Key (wrapUnsigned rt.wordBits n) h)
  | .ReflectType v => enc.AddReflected f.Key v h
  | .NamespaceType => (none, enc.OpenNamespace f.Key h)
  | .SkipType => (none, h)

/-- The method `zapcore.Field.AddTo`: the call for the tag, and when that call returns an error
the error text is stored under the key followed by `Error`. -/
def Field.AddTo (rt : Runtime) (f : Field) (enc : AliYunEncoder) (h : Heap) : Heap :=
  let r := f.dispatch rt enc h
  match r.1 with
  | some err => enc.AddString (f.Key ++ "Error") err r.2
  | none => r.2

/-- The function `addFields` of `core.go`. -/
def addFields (rt : Runtime) (enc : AliYunEncoder) (fields : List Field) (h : Heap) : Heap :=
  fields.foldl (fun h1 f => f.AddTo rt enc h1) h

/-- The method `EncodeEntry`: the returned pair is the reference to the map of the working
clone and the error, which is always nil. -/
def AliYunEncoder.EncodeEntry (rt : Runtime) (a : AliYunEncoder) (ent : Entry)
    (fields : List Field) (h : Heap) : (MapPtr × Option String) × Heap :=
  let c := a.clone h
  let final := c.1
  let h := addFields rt final fields c.2
  let h :=
    if final.cfg.LevelKey ≠ "" then
      let level := ent.Level.String
      let level := match final.cfg.EncodeLevel with
        | some encodeLevel => encodeLevel ent.Level
        | none => level
      final.AddString final.cfg.LevelKey level h
    else h
  let h := if final.cfg.TimeKey ≠ "" then final.AddTime rt final.cfg.TimeKey ent.Time h else h
  let h :=
    if ent.LoggerName ≠ "" ∧ final.cfg.NameKey ≠ "" then
      let loggerName := ent.LoggerName
      let loggerName := match final.cfg.EncodeName with
        | some encodeName => encodeName loggerName
        | none => loggerName
      final.AddString final.cfg.NameKey loggerName h
    else h
  let h :=
    if ent.Caller.Defined then
      let h :=
        if final.cfg.CallerKey ≠ "" then
          match final.cfg.EncodeCaller with
          | some encodeCaller => final.AddString final.cfg.CallerKey (encodeCaller ent.Caller) h
          | none => h
        else h
      if final.cfg.FunctionKey ≠ "" then final.AddString final.cfg.FunctionKey ent.Caller.Function h
      else h
    else h
  let h := if final.cfg.MessageKey ≠ "" then final.AddString final.cfg.MessageKey ent.Message h
    else h
  let h := addFields rt final fields h
  let h :=
    if ent.Stack ≠ "" ∧ final.cfg.StacktraceKey ≠ "" then
      final.AddString final.cfg.StacktraceKey ent.Stack h
    else h
  ((final.m, none), h)

/-! ## The record adapter (`core.go`) -/

/-- The struct `ProducerConfig`: the destination and the embedded level enabler. -/
structure ProducerConfig where
  ProjectName : String
  LogStore : String
  Topic : String
  Source : String
  LevelEnabler : Level → Bool

/-- A pointer to a `producer.Producer`. -/
abbrev ProducerPtr := Nat

/-- The struct `AliYunCore`; a nil `producer` or `client` is `none`. -/
structure AliYunCore where
  config : ProducerConfig
  enc : AliYunEncoder
  producer : Option ProducerPtr
  client : Option Nat

/-- The constructor `NewAliYunCore`; the field `client` is left at its zero value. -/
def NewAliYunCore (enc : AliYunEncoder) (producer : Option ProducerPtr) (config : ProducerConfig) :
    AliYunCore :=
  { enc := enc, producer := producer, config := config, client := none }

/-- The promoted method `Enabled` of the embedded level enabler. -/
def AliYunCore.Enabled (a : AliYunCore) (l : Level) : Bool := a.config.LevelEnabler l

/-- The method `clone` of the adapter: the configuration, the client and a clone of the encoder;
the composite literal has no `producer` entry, so that field is nil. -/
def AliYunCore.clone (a : AliYunCore) (h : Heap) : AliYunCore × Heap :=
  let r := a.enc.clone h
  ({ config := a.config, client := a.client, enc := r.1, producer := none }, r.2)

/-- The method `With`. -/
def AliYunCore.With (rt : Runtime) (a : AliYunCore) (fields : List Field) (h : Heap) :
    AliYunCore × Heap :=
  let c := a.clone h
  (c.1, addFields rt c.1.enc fields c.2)

/-- A `zapcore.CheckedEntry`: the entry and the cores registered for it. -/
structure CheckedEntry where
  Entry : Entry
  cores : List AliYunCore

/-- The method `AddCore` of a checked entry pointer (`none` is the nil pointer). -/
def CheckedEntry.AddCore (ce : Option CheckedEntry) (ent : ZapAliyun.Entry) (core : AliYunCore) :
    Option CheckedEntry :=
  match ce with
  | none => some { Entry := ent, cores := [core] }
  | some c => some { c with cores := c.cores ++ [core] }

/-- The method `Check`. -/
def AliYunCore.Check (a : AliYunCore) (ent : Entry) (ce : Option CheckedEntry) :
    Option CheckedEntry :=
  if a.Enabled ent.Level then CheckedEntry.AddCore ce ent a else ce

/-- A `sls.LogContent`. -/
structure LogContent where
  Key : String
  Value : String
  deriving DecidableEq

/-- A `sls.Log`. -/
structure Log where
  Time : Nat
  Contents : List LogContent
  deriving DecidableEq

/-- One call of `SendLog`: the producer it is made on and its arguments. -/
structure Submission where
  producer : ProducerPtr
  project : String
  logstore : String
  topic : String
  source : String
  log : Log
  deriving DecidableEq

/-- The transport: the calls of `SendLog` so far, and the error `SendLog` answers a call with. -/
structure Transport where
  sent : List Submission
  reply : Submission → Option String

/-- How a call of `Write` ends: it returns an error value (nil included) or it panics. -/
inductive WriteResult where
  | returned (err : Option String)
  | panicked
  deriving DecidableEq

/-- The method `Write`; `now` is `time.Now().Unix()`. A call of `SendLog` on a nil producer
dereferences the nil pointer and panics. -/
def AliYunCore.Write (rt : Runtime) (a : AliYunCore) (entry : Entry) (fields : List Field)
    (now : Int) (h : Heap) (t : Transport) : WriteResult × Heap × Transport :=
  let r := a.enc.EncodeEntry rt entry fields h
  match r.1.2 with
  | some err => (.returned (some err), r.2, t)
  | none =>
    let m := r.2.read r.1.1
    let content := m.map (fun kv => ({ Key := kv.1, Value := kv.2 } : LogContent))
    let log : Log := { Time := wrapUnsigned 32 now, Contents := content }
    match a.producer with
    | none => (.panicked, r.2, t)
    | some p =>
      let sub : Submission :=
        { producer := p, project := a.config.ProjectName, logstore := a.config.LogStore,
          topic := a.config.Topic, source := a.config.Source, log := log }
      (.returned (t.reply sub), r.2, { t with sent := t.sent ++ [sub] })

/-- The method `Write` of a checked entry: nothing for the nil pointer, otherwise `Write` of each
registered core in turn with the stored entry. -/
def CheckedEntry.Write (rt : Runtime) (ce : Option CheckedEntry) (fields : List Field) (now : Int)
    (h : Heap) (t : Transport) : Heap × Transport :=
  match ce with
  | none => (h, t)
  | some c =>
    c.cores.foldl (fun st core => (core.Write rt c.Entry fields now st.1 st.2).2) (h, t)

/-! ## Derived definitions used to state and prove the theorems -/

/-- In-place change of the map behind a reference. -/
def Heap.modify (h : Heap) (p : MapPtr) (g : FieldMap → FieldMap) : Heap :=
  h.write p (g (h.read p))

/-- The binding that `AddTo` leaves for a field in the map of an encoder with the given
configuration (none when it writes nothing), read off a run of `AddTo` on an empty map. -/
def Field.binding (rt : Runtime) (cfg : EncoderConfig) (f : Field) : Option (String × String) :=
  (Heap.read (f.AddTo rt { cfg := cfg, m := 0 } [[]]) 0).head?

/-- A map after an optional write. -/
def applyBinding (o : Option (String × String)) (m : FieldMap) : FieldMap :=
  match o with
  | none => m
  | some kv => FieldMap.insert kv.1 kv.2 m

/-- The keys that `addFields` writes for a list of fields. -/
def fieldKeys (rt : Runtime) (cfg : EncoderConfig) (fields : List Field) : List String :=
  fields.filterMap (fun f => (f.binding rt cfg).map Prod.fst)

/-- The content of a map after `addFields`, as a function of its content before. -/
def mergeFields (rt : Runtime) (cfg : EncoderConfig) (fields : List Field) (m : FieldMap) :
    FieldMap :=
  fields.foldl (fun m1 f => applyBinding (f.binding rt cfg) m1) m

/-- The content of the working map between the two calls of `addFields` in `EncodeEntry`, as a
function of its content after the first. -/
def metaMap (rt : Runtime) (cfg : EncoderConfig) (ent : Entry) (m : FieldMap) : FieldMap :=
  let m :=
    if cfg.LevelKey ≠ "" then
      FieldMap.insert cfg.LevelKey
        (match cfg.EncodeLevel with
          | some encodeLevel => encodeLevel ent.Level
          | none => ent.Level.String) m
    else m
  let m :=
    if cfg.TimeKey ≠ "" then
      FieldMap.insert cfg.TimeKey
        (match cfg.EncodeTime with
          | some encodeTime => encodeTime ent.Time
          | none => rt.appendTime ent.Time) m
    else m
  let m :=
    if ent.LoggerName ≠ "" ∧ cfg.NameKey ≠ "" then
      FieldMap.insert cfg.NameKey
        (match cfg.EncodeName with
          | some encodeName => encodeName ent.LoggerName
          | none => ent.LoggerName) m
    else m
  let m :=
    if ent.Caller.Defined then
      let m :=
        if cfg.CallerKey ≠ "" then
          match cfg.EncodeCaller with
          | some encodeCaller => FieldMap.insert cfg.CallerKey (encodeCaller ent.Caller) m
          | none => m
        else m
      if cfg.FunctionKey ≠ "" then FieldMap.insert cfg.FunctionKey ent.Caller.Function m else m
    else m
  if cfg.MessageKey ≠ "" then FieldMap.insert cfg.MessageKey ent.Message m else m

/-- The content of the map that `EncodeEntry` returns, as a function of the content of the
clone it starts from. -/
def finalMap (rt : Runtime) (cfg : EncoderConfig) (ent : Entry) (fields : List Field)
    (m : FieldMap) : FieldMap :=
  let m := mergeFields rt cfg fields (metaMap rt cfg ent (mergeFields rt cfg fields m))
  if ent.Stack ≠ "" ∧ cfg.StacktraceKey ≠ "" then FieldMap.insert cfg.StacktraceKey ent.Stack m
  else m

/-- The flat map that `EncodeEntry` returns: the content behind the returned reference. -/
def AliYunEncoder.EncodeEntryMap (rt : Runtime) (a : AliYunEncoder) (ent : Entry)
    (fields : List Field) (h : Heap) : FieldMap :=
  let r := a.EncodeEntry rt ent fields h
  Heap.read r.2 r.1.1

/-- The seven configured key names. -/
def EncoderConfig.keyNames (cfg : EncoderConfig) : List String :=
  [cfg.MessageKey, cfg.LevelKey, cfg.TimeKey, cfg.NameKey, cfg.CallerKey, cfg.FunctionKey,
    cfg.StacktraceKey]

/-! ## Reading back decimal and base64 text -/

/-- The value of a decimal digit character. -/
def digitValue (c : Char) : Option Nat :=
  if c.isDigit then some (c.toNat - 48) else none

/-- The number a non-empty string of decimal digits denotes. -/
def parseDigits (cs : List Char) : Option Nat :=
  match cs with
  | [] => none
  | _ =>
    cs.foldl (fun acc c =>
      match acc, digitValue c with
      | some n, some d => some (n * 10 + d)
      | _, _ => none) (some 0)

/-- The integer a decimal text denotes: an optional minus sign, then digits. -/
def parseDecimal (s : String) : Option Int :=
  match s.data with
  | '-' :: rest => (parseDigits rest).map (fun n => -(n : Int))
  | cs => (parseDigits cs).map Int.ofNat

/-- Canonical digits: at least one, all decimal digits, no leading zero except for `0` itself. -/
def canonicalDigits (cs : List Char) : Bool :=
  !cs.isEmpty && cs.all Char.isDigit && (cs.length == 1 || cs.head? != some '0')

/-- Canonical decimal text: canonical digits, after a minus sign only for a non-zero number. -/
def canonicalDecimal (s : String) : Bool :=
  match s.data with
  | '-' :: rest => canonicalDigits rest && rest != ['0']
  | cs => canonicalDigits cs

/-- The 6-bit group of a character of the base64 alphabet. -/
def base64Index (c : Char) : Option Nat :=
  let i := base64Alphabet.indexOf c
  if i < 64 then some i else none

/-- Decoding of padded standard base64. -/
def base64Decode : List Char → Option (List Nat)
  | [] => some []
  | c0 :: c1 :: c2 :: c3 :: rest =>
    match base64Index c0, base64Index c1 with
    | some x0, some x1 =>
      if c2 = '=' ∧ c3 = '=' ∧ rest = [] then some [(x0 * 64 + x1) / 16]
      else
        match base64Index c2 with
        | some x2 =>
          if c3 = '=' ∧ rest = [] then
            some [((x0 * 64 + x1) * 64 + x2) / 1024, ((x0 * 64 + x1) * 64 + x2) / 4 % 256]
          else
            match base64Index c3, base64Decode rest with
            | some x3, some tail =>
              some ((((x0 * 64 + x1) * 64 + x2) * 64 + x3) / 65536
                :: (((x0 * 64 + x1) * 64 + x2) * 64 + x3) / 256 % 256
                :: (((x0 * 64 + x1) * 64 + x2) * 64 + x3) % 256 :: tail)
            | _, _ => none
        | none => none
    | _, _ => none
  | _ => none

/-! ## Finalization with a single merge -/

/-- The procedure of `EncodeEntry` with the second call of `addFields` removed: the fields are
merged once, before the level, time, name, caller, function and message are added. -/
def AliYunEncoder.EncodeEntrySingleMerge (rt : Runtime) (a : AliYunEncoder) (ent : Entry)
    (fields : List Field) (h : Heap) : (MapPtr × Option String) × Heap :=
  let c := a.clone h
  let final := c.1
  let h := addFields rt final fields c.2
  let h :=
    if final.cfg.LevelKey ≠ "" then
      let level := ent.Level.String
      let level := match final.cfg.EncodeLevel with
        | some encodeLevel => encodeLevel ent.Level
        | none => level
      final.AddString final.cfg.LevelKey level h
    else h
  let h := if final.cfg.TimeKey ≠ "" then final.AddTime rt final.cfg.TimeKey ent.Time h else h
  let h :=
    if ent.LoggerName ≠ "" ∧ final.cfg.NameKey ≠ "" then
      let loggerName := ent.LoggerName
      let loggerName := match final.cfg.EncodeName with
        | some encodeName => encodeName loggerName
        | none => loggerName
      final.AddString final.cfg.NameKey loggerName h
    else h
  let h :=
    if ent.Caller.Defined then
      let h :=
        if final.cfg.CallerKey ≠ "" then
          match final.cfg.EncodeCaller with
          | some encodeCaller => final.AddString final.cfg.CallerKey (encodeCaller ent.Caller) h
          | none => h
        else h
      if final.cfg.FunctionKey ≠ "" then final.AddString final.cfg.FunctionKey ent.Caller.Function h
      else h
    else h
  let h := if final.cfg.MessageKey ≠ "" then final.AddString final.cfg.MessageKey ent.Message h
    else h
  let h :=
    if ent.Stack ≠ "" ∧ final.cfg.StacktraceKey ≠ "" then
      final.AddString final.cfg.StacktraceKey ent.Stack h
    else h
  ((final.m, none), h)

/-- The flat map that the single-merge procedure returns. -/
def AliYunEncoder.EncodeEntrySingleMergeMap (rt : Runtime) (a : AliYunEncoder) (ent : Entry)
    (fields : List Field) (h : Heap) : FieldMap :=
  let r := a.EncodeEntrySingleMerge rt ent fields h
  Heap.read r.2 r.1.1

/-- The content of the map that the single-merge procedure returns, as a function of the
content of the clone it starts from. -/
def finalMapSingleMerge (rt : Runtime) (cfg : EncoderConfig) (ent : Entry) (fields : List Field)
    (m : FieldMap) : FieldMap :=
  let m := metaMap rt cfg ent (mergeFields rt cfg fields m)
  if ent.Stack ≠ "" ∧ cfg.StacktraceKey ≠ "" then FieldMap.insert cfg.StacktraceKey ent.Stack m
  else m

/-- The six key names under which `EncodeEntry` writes between its two merges. -/
def EncoderConfig.metaKeyNames (cfg : EncoderConfig) : List String :=
  [cfg.MessageKey, cfg.LevelKey, cfg.TimeKey, cfg.NameKey, cfg.CallerKey, cfg.FunctionKey]

/-! ## Sample values for the concrete instances -/

/-- The text of a float64 that is an integer of magnitude below 2 ^ 53: its decimal digits after
an optional minus sign, which is what `strconv.AppendFloat(_, f, 'f', -1, 64)` writes for it; a
question mark for every other float. -/
def integralFloatText (f : Float64) : String :=
  let signText := if f.sign then "-" else ""
  if f.exp = 0 ∧ f.frac = 0 then signText ++ "0"
  else if 1023 ≤ f.exp ∧ f.exp ≤ 1075 ∧ (2 ^ 52 + f.frac) % 2 ^ (1075 - f.exp) = 0 then
    signText ++ Nat.repr ((2 ^ 52 + f.frac) / 2 ^ (1075 - f.exp))
  else "?"

/-- A runtime for the concrete instances: integral floats are formatted, every time is rendered
as the epoch, words have 64 bits. -/
def sampleRuntime : Runtime :=
  { appendFloat := fun f _ => integralFloatText f,
    appendTime := fun _ => "1970-01-01T00:00:00Z",
    wordBits := 64 }

/-- A configuration with every key name empty and no formatter. -/
def emptyConfig : EncoderConfig :=
  { MessageKey := "", LevelKey := "", TimeKey := "", NameKey := "", CallerKey := "",
    FunctionKey := "", StacktraceKey := "", EncodeLevel := none, EncodeTime := none,
    EncodeDuration := none, EncodeCaller := none, EncodeName := none }

/-- The configuration of the end-to-end example: message key `msg`, level key `level`. -/
def msgLevelConfig : EncoderConfig :=
  { emptyConfig with MessageKey := "msg", LevelKey := "level" }

/-- An entry at the given level with the given message and nothing else. -/
def plainEntry (l : Level) (msg : String) : Entry :=
  { Level := l, Time := { unixNano := 0, zoneOffset := 0 }, LoggerName := "", Message := msg,
    Caller := { Defined := false, PC := 0, File := "", Line := 0, Function := "" }, Stack := "" }

/-- A string field. -/
def stringField (key value : String) : Field := { Key := key, Value := .StringType value }

/-- An object marshaler whose marshalling fails with the given error. -/
def failingObject (err : String) : ObjectMarshaler := fun _ => .error err

/-- An object marshaler that the JSON encoder serializes to the given text. -/
def textObject (text : String) : ObjectMarshaler := fun _ => .ok text

/-- A heap with one map, which holds the binding `svc = api`. -/
def sampleHeap : Heap := [[("svc", "api")]]

/-- An encoder over the map of `sampleHeap`. -/
def sampleEncoder (cfg : EncoderConfig) : AliYunEncoder := { cfg := cfg, m := 0 }

/-- A destination that enables the levels from info upwards. -/
def sampleProducerConfig : ProducerConfig :=
  { ProjectName := "proj", LogStore := "store", Topic := "topic", Source := "src",
    LevelEnabler := fun l => decide (InfoLevel ≤ l) }

/-- An adapter as `NewAliYunCore` builds it, with producer number 7. -/
def sampleCore (cfg : EncoderConfig) : AliYunCore :=
  NewAliYunCore (sampleEncoder cfg) (some 7) sampleProducerConfig

/-- A transport that has received nothing and accepts every record. -/
def emptyTransport : Transport := { sent := [], reply := fun _ => none }

/-- The float64 values 3, 2 and -2, a NaN and the two infinities. -/
def float3 : Float64 := { sign := false, exp := 1024, frac := 2 ^ 51 }
def float2 : Float64 := { sign := false, exp := 1024, frac := 0 }
def floatNeg2 : Float64 := { sign := true, exp := 1024, frac := 0 }
def floatNaN : Float64 := { sign := false, exp := 2047, frac := 2 ^ 51 }
def floatPosInf : Float64 := { sign := false, exp := 2047, frac := 0 }
def floatNegInf : Float64 := { sign := true, exp := 2047, frac := 0 }

/-- The float32 NaN and infinities. -/
def float32NaN : Float32 := { sign := false, exp := 255, frac := 2 ^ 22 }
def float32PosInf : Float32 := { sign := false, exp := 255, frac := 0 }
def float32NegInf : Float32 := { sign := true, exp := 255, frac := 0 }

/-- A configuration in which only the caller key and the function key are set. -/
def callerConfig (encodeCaller : Option (EntryCaller → String)) : EncoderConfig :=
  { emptyConfig with CallerKey := "caller", FunctionKey := "func", EncodeCaller := encodeCaller }

/-- An entry with a defined caller `main.go:10` in function `main.run`. -/
def callerEntry : Entry :=
  { plainEntry InfoLevel "hello" with
    Caller := { Defined := true, PC := 0, File := "main.go", Line := 10, Function := "main.run" } }

/-- A heap with one empty map. -/
def emptyHeap : Heap := [[]]

/-! ## Lemmas on maps and on the heap -/

theorem FieldMap.lookup_erase_self (k : String) (m : FieldMap) :
    FieldMap.lookup k (FieldMap.erase k m) = none := by
  induction m with
  | nil => rfl
  | cons kv t ih =>
    obtain ⟨k1, v⟩ := kv
    by_cases hk : k1 = k
    · simp [FieldMap.erase, hk, ih]
    · simp [FieldMap.erase, FieldMap.lookup, hk, ih]

theorem FieldMap.lookup_erase_ne (k q : String) (m : FieldMap) (hq : k ≠ q) :
    FieldMap.lookup q (FieldMap.erase k m) = FieldMap.lookup q m := by
  induction m with
  | nil => rfl
  | cons kv t ih =>
    obtain ⟨k1, v⟩ := kv
    by_cases hk : k1 = k
    · subst hk
      simp [FieldMap.erase, FieldMap.lookup, hq, ih]
    · by_cases hk2 : k1 = q
      · subst hk2
        simp [FieldMap.erase, FieldMap.lookup, hk]
      · simp [FieldMap.erase, FieldMap.lookup, hk, hk2, ih]

theorem FieldMap.lookup_insert_self (k v : String) (m : FieldMap) :
    FieldMap.lookup k (FieldMap.insert k v m) = some v := by
  simp [FieldMap.insert, FieldMap.lookup]

theorem FieldMap.lookup_insert_ne (k v q : String) (m : FieldMap) (hq : k ≠ q) :
    FieldMap.lookup q (FieldMap.insert k v m) = FieldMap.lookup q m := by
  simp [FieldMap.insert, FieldMap.lookup, hq, FieldMap.lookup_erase_ne k q m hq]

theorem Heap.length_write (h : Heap) (p : MapPtr) (m : FieldMap) :
    (Heap.write h p m).length = h.length := by
  simp [Heap.write]

theorem Heap.read_write_self (h : Heap) (p : MapPtr) (m : FieldMap) (hp : p < h.length) :
    Heap.read (Heap.write h p m) p = m := by
  simp [Heap.read, Heap.write, List.getD_eq_getElem?_getD, hp]

theorem Heap.read_write_ne (h : Heap) (p q : MapPtr) (m : FieldMap) (hq : p ≠ q) :
    Heap.read (Heap.write h p m) q = Heap.read h q := by
  simp [Heap.read, Heap.write, List.getD_eq_getElem?_getD, List.getElem?_set_ne hq]

theorem Heap.write_read (h : Heap) (p : MapPtr) : Heap.write h p (Heap.read h p) = h := by
  by_cases hp : p < h.length
  · simp only [Heap.read, Heap.write, List.getD_eq_getElem?_getD, List.getElem?_eq_getElem hp,
      Option.getD_some]
    apply List.ext_getElem (by simp)
    intro n h1 h2
    rw [List.getElem_set]
    split
    · rename_i hpn
      subst hpn
      rfl
    · rfl
  · simp [Heap.write, List.set_eq_of_length_le (Nat.le_of_not_lt hp)]

theorem Heap.write_write (h : Heap) (p : MapPtr) (m1 m2 : FieldMap) :
    Heap.write (Heap.write h p m1) p m2 = Heap.write h p m2 := by
  simp [Heap.write]

theorem Heap.read_append_new (h : Heap) (m : FieldMap) : Heap.read (h ++ [m]) h.length = m := by
  simp [Heap.read, List.getD_eq_getElem?_getD]

theorem Heap.read_append_old (h : Heap) (m : FieldMap) (q : MapPtr) (hq : q < h.length) :
    Heap.read (h ++ [m]) q = Heap.read h q := by
  simp [Heap.read, List.getD_eq_getElem?_getD, List.getElem?_append_left hq]

theorem Heap.write_append_new (h : Heap) (m1 m2 : FieldMap) :
    Heap.write (h ++ [m1]) h.length m2 = h ++ [m2] := by
  simp [Heap.write]

theorem Heap.modify_append_new (h : Heap) (m : FieldMap) (g : FieldMap → FieldMap) :
    Heap.modify (h ++ [m]) h.length g = h ++ [g m] := by
  simp [Heap.modify, Heap.read_append_new, Heap.write_append_new]

theorem Heap.modify_id (h : Heap) (p : MapPtr) : Heap.modify h p (fun m => m) = h := by
  simp [Heap.modify, Heap.write_read]

/-! ## The encoder methods as changes of one map -/

theorem Heap.length_modify (h : Heap) (p : MapPtr) (g : FieldMap → FieldMap) :
    (Heap.modify h p g).length = h.length := by
  simp [Heap.modify, Heap.length_write]

theorem Heap.read_modify_self (h : Heap) (p : MapPtr) (g : FieldMap → FieldMap)
    (hp : p < h.length) : Heap.read (Heap.modify h p g) p = g (Heap.read h p) := by
  simp [Heap.modify, Heap.read_write_self h p _ hp]

theorem Heap.read_modify_ne (h : Heap) (p q : MapPtr) (g : FieldMap → FieldMap) (hq : p ≠ q) :
    Heap.read (Heap.modify h p g) q = Heap.read h q := by
  simp [Heap.modify, Heap.read_write_ne h p q _ hq]

theorem Heap.modify_modify (h : Heap) (p : MapPtr) (g1 g2 : FieldMap → FieldMap) :
    Heap.modify (Heap.modify h p g1) p g2 = Heap.modify h p (fun m => g2 (g1 m)) := by
  by_cases hp : p < h.length
  · simp only [Heap.modify]
    rw [Heap.read_write_self h p _ hp, Heap.write_write]
  · have hw : ∀ m, Heap.write h p m = h := fun m => by
      simp [Heap.write, List.set_eq_of_length_le (Nat.le_of_not_lt hp)]
    simp [Heap.modify, hw]

theorem AddString_eq_modify (a : AliYunEncoder) (k v : String) (h : Heap) :
    a.AddString k v h = Heap.modify h a.m (FieldMap.insert k v) := rfl

theorem MarshalLogObject_cfg (a : AliYunEncoder) (v : ObjectMarshaler) :
    a.MarshalLogObject v = AliYunEncoder.MarshalLogObject { cfg := a.cfg, m := 0 } v := rfl

theorem MarshalLogArray_cfg (a : AliYunEncoder) (v : ArrayMarshaler) :
    a.MarshalLogArray v = AliYunEncoder.MarshalLogArray { cfg := a.cfg, m := 0 } v := rfl

theorem applyBinding_some (k v : String) : applyBinding (some (k, v)) = FieldMap.insert k v := rfl

theorem applyBinding_none : applyBinding none = fun m => m := rfl

/-- Every field is encoded as at most one write, which depends on the encoder through its
configuration only. -/
theorem Field.AddTo_shape (rt : Runtime) (cfg : EncoderConfig) (f : Field) :
    ∃ o : Option (String × String), ∀ (enc : AliYunEncoder) (h : Heap), enc.cfg = cfg →
      f.AddTo rt enc h = Heap.modify h enc.m (applyBinding o) := by
  obtain ⟨key, val⟩ := f
  cases val with
  | ObjectMarshalerType v =>
    cases hr : AliYunEncoder.MarshalLogObject { cfg := cfg, m := 0 } v with
    | error err =>
      refine ⟨some (key ++ "Error", err), fun enc h hc => ?_⟩
      subst hc
      simp [Field.AddTo, Field.dispatch, AliYunEncoder.AddObject, MarshalLogObject_cfg enc, hr,
        AddString_eq_modify, applyBinding_some]
    | ok s =>
      refine ⟨some (key, s), fun enc h hc => ?_⟩
      subst hc
      simp [Field.AddTo, Field.dispatch, AliYunEncoder.AddObject, MarshalLogObject_cfg enc, hr,
        AddString_eq_modify, applyBinding_some]
  | ArrayMarshalerType v =>
    cases hr : AliYunEncoder.MarshalLogArray { cfg := cfg, m := 0 } v with
    | error err =>
      refine ⟨some (key ++ "Error", err), fun enc h hc => ?_⟩
      subst hc
      simp [Field.AddTo, Field.dispatch, AliYunEncoder.AddArray, MarshalLogArray_cfg enc, hr,
        AddString_eq_modify, applyBinding_some]
    | ok s =>
      refine ⟨some (key, s), fun enc h hc => ?_⟩
      subst hc
      simp [Field.AddTo, Field.dispatch, AliYunEncoder.AddArray, MarshalLogArray_cfg enc, hr,
        AddString_eq_modify, applyBinding_some]
  | ReflectType v =>
    cases hr : AliYunEncoder.encodeReflected { cfg := cfg, m := 0 } v with
    | error err =>
      refine ⟨some (key ++ "Error", err), fun enc h hc => ?_⟩
      have hr2 : enc.encodeReflected v = .error err := hr
      simp [Field.AddTo, Field.dispatch, AliYunEncoder.AddReflected, hr2,
        AddString_eq_modify, applyBinding_some]
    | ok s =>
      refine ⟨some (key, s), fun enc h hc => ?_⟩
      have hr2 : enc.encodeReflected v = .ok s := hr
      simp [Field.AddTo, Field.dispatch, AliYunEncoder.AddReflected, hr2,
        AddString_eq_modify, applyBinding_some]
  | BoolType n =>
    by_cases hb : wrapSigned 64 n = 1
    · refine ⟨some (key, "true"), fun enc h _ => ?_⟩
      simp [Field.AddTo, Field.dispatch, AliYunEncoder.AddBool, hb, AddString_eq_modify,
        applyBinding_some]
    · refine ⟨some (key, "false"), fun enc h _ => ?_⟩
      simp [Field.AddTo, Field.dispatch, AliYunEncoder.AddBool, hb, AddString_eq_modify,
        applyBinding_some]
  | TimeType v =>
    cases ht : cfg.EncodeTime with
    | none =>
      refine ⟨some (key, rt.appendTime v), fun enc h hc => ?_⟩
      subst hc
      simp [Field.AddTo, Field.dispatch, AliYunEncoder.AddTime, ht, AddString_eq_modify,
        applyBinding_some]
    | some g =>
      refine ⟨some (key, g v), fun enc h hc => ?_⟩
      subst hc
      simp [Field.AddTo, Field.dispatch, AliYunEncoder.AddTime, ht, AddString_eq_modify,
        applyBinding_some]
  | NamespaceType =>
    refine ⟨none, fun enc h _ => ?_⟩
    simp [Field.AddTo, Field.dispatch, AliYunEncoder.OpenNamespace, applyBinding_none,
      Heap.modify_id]
  | SkipType =>
    refine ⟨none, fun enc h _ => ?_⟩
    simp [Field.AddTo, Field.dispatch, applyBinding_none, Heap.modify_id]
  | BinaryType v =>
    exact ⟨some (key, EncodeToString v), fun enc h _ => rfl⟩
  | ByteStringType v => exact ⟨some (key, v), fun enc h _ => rfl⟩
  | Complex128Type v => exact ⟨some (key, _), fun enc h _ => rfl⟩
  | Complex64Type v => exact ⟨some (key, _), fun enc h _ => rfl⟩
  | DurationType n => exact ⟨some (key, _), fun enc h _ => rfl⟩
  | Float64Type n =>
    exact ⟨some (key, AliYunEncoder.formatFloat rt { cfg := cfg, m := 0 }
      (Float64.ofBits (wrapUnsigned 64 n)) 64), fun enc h _ => rfl⟩
  | Float32Type n =>
    exact ⟨some (key, AliYunEncoder.formatFloat rt { cfg := cfg, m := 0 }
      (Float32.ofBits (wrapUnsigned 32 n)).toFloat64 32), fun enc h _ => rfl⟩
  | Int64Type n => exact ⟨some (key, _), fun enc h _ => rfl⟩
  | Int32Type n => exact ⟨some (key, _), fun enc h _ => rfl⟩
  | Int16Type n => exact ⟨some (key, _), fun enc h _ => rfl⟩
  | Int8Type n => exact ⟨some (key, _), fun enc h _ => rfl⟩
  | StringType v => exact ⟨some (key, v), fun enc h _ => rfl⟩
  | Uint64Type n => exact ⟨some (key, _), fun enc h _ => rfl⟩
  | Uint32Type n => exact ⟨some (key, _), fun enc h _ => rfl⟩
  | Uint16Type n => exact ⟨some (key, _), fun enc h _ => rfl⟩
  | Uint8Type n => exact ⟨some (key, _), fun enc h _ => rfl⟩
  | UintptrType n => exact ⟨some (key, _), fun enc h _ => rfl⟩


theorem Field.AddTo_eq (rt : Runtime) (f : Field) (enc : AliYunEncoder) (h : Heap) :
    f.AddTo rt enc h = Heap.modify h enc.m (applyBinding (f.binding rt enc.cfg)) := by
  obtain ⟨o, ho⟩ := Field.AddTo_shape rt enc.cfg f
  have hb : f.binding rt enc.cfg = o := by
    have h0 := ho { cfg := enc.cfg, m := 0 } [[]] rfl
    simp only [Field.binding, h0]
    rw [Heap.read_modify_self _ _ _ (by simp)]
    cases o with
    | none => rfl
    | some kv => rfl
  rw [hb]
  exact ho enc h rfl

theorem addFields_eq (rt : Runtime) (enc : AliYunEncoder) (fields : List Field) (h : Heap) :
    addFields rt enc fields h = Heap.modify h enc.m (mergeFields rt enc.cfg fields) := by
  induction fields generalizing h with
  | nil =>
    show h = Heap.modify h enc.m (fun m => m)
    rw [Heap.modify_id]
  | cons f fs ih =>
    have hstep : addFields rt enc (f :: fs) h = addFields rt enc fs (f.AddTo rt enc h) := rfl
    rw [hstep, ih, Field.AddTo_eq, Heap.modify_modify]
    rfl

theorem ite_append_single (c : Prop) [Decidable c] (h : Heap) (x y : FieldMap) :
    (if c then h ++ [x] else h ++ [y]) = h ++ [if c then x else y] := by
  split <;> rfl

theorem AddString_append_new (cfg : EncoderConfig) (k v : String) (h : Heap) (m : FieldMap) :
    AliYunEncoder.AddString { cfg := cfg, m := h.length } k v (h ++ [m])
      = h ++ [FieldMap.insert k v m] := by
  rw [AddString_eq_modify, Heap.modify_append_new]

theorem addFields_append_new (rt : Runtime) (cfg : EncoderConfig) (fields : List Field) (h : Heap)
    (m : FieldMap) :
    addFields rt { cfg := cfg, m := h.length } fields (h ++ [m])
      = h ++ [mergeFields rt cfg fields m] := by
  rw [addFields_eq, Heap.modify_append_new]

theorem AliYunEncoder.EncodeEntry_eq (rt : Runtime) (a : AliYunEncoder) (ent : Entry)
    (fields : List Field) (h : Heap) :
    a.EncodeEntry rt ent fields h
      = ((h.length, none), h ++ [finalMap rt a.cfg ent fields (a.cloneMap h)]) := by
  unfold AliYunEncoder.EncodeEntry
  lift_lets
  intro c final h1 level0 level h2 h3 name0 name h4 h5 h6 h7 h8 h9
  have hf : final = { cfg := a.cfg, m := h.length } := rfl
  obtain ⟨m1, hm1, e1⟩ : ∃ m1, m1 = mergeFields rt a.cfg fields (a.cloneMap h) ∧ h1 = h ++ [m1] :=
    ⟨_, rfl, addFields_append_new rt a.cfg fields h _⟩
  obtain ⟨m2, hm2, e2⟩ : ∃ m2, m2 = (if a.cfg.LevelKey ≠ "" then
      FieldMap.insert a.cfg.LevelKey level m1 else m1) ∧ h2 = h ++ [m2] := by
    refine ⟨_, rfl, ?_⟩
    show (if a.cfg.LevelKey ≠ "" then final.AddString a.cfg.LevelKey level h1 else h1) = _
    rw [e1, hf]
    split <;> simp [AddString_append_new]
  obtain ⟨m3, hm3, e3⟩ : ∃ m3, m3 = (if a.cfg.TimeKey ≠ "" then
      FieldMap.insert a.cfg.TimeKey (match a.cfg.EncodeTime with
        | some encodeTime => encodeTime ent.Time
        | none => rt.appendTime ent.Time) m2 else m2) ∧ h3 = h ++ [m3] := by
    refine ⟨_, rfl, ?_⟩
    show (if a.cfg.TimeKey ≠ "" then final.AddTime rt a.cfg.TimeKey ent.Time h2 else h2) = _
    rw [e2, hf]
    split
    · simp only [AliYunEncoder.AddTime]
      cases a.cfg.EncodeTime <;> simp [AddString_append_new]
    · rfl
  obtain ⟨m4, hm4, e4⟩ : ∃ m4, m4 = (if ent.LoggerName ≠ "" ∧ a.cfg.NameKey ≠ "" then
      FieldMap.insert a.cfg.NameKey name m3 else m3) ∧ h4 = h ++ [m4] := by
    refine ⟨_, rfl, ?_⟩
    show (if ent.LoggerName ≠ "" ∧ a.cfg.NameKey ≠ "" then
      final.AddString a.cfg.NameKey name h3 else h3) = _
    rw [e3, hf]
    split <;> simp [AddString_append_new]
  obtain ⟨m5, hm5, e5⟩ : ∃ m5, m5 = (if a.cfg.CallerKey ≠ "" then
      match a.cfg.EncodeCaller with
      | some encodeCaller => FieldMap.insert a.cfg.CallerKey (encodeCaller ent.Caller) m4
      | none => m4
      else m4) ∧ h5 = h ++ [m5] := by
    refine ⟨_, rfl, ?_⟩
    show (if a.cfg.CallerKey ≠ "" then
      match a.cfg.EncodeCaller with
      | some encodeCaller => final.AddString a.cfg.CallerKey (encodeCaller ent.Caller) h4
      | none => h4
      else h4) = _
    rw [e4, hf]
    split
    · cases a.cfg.EncodeCaller <;> simp [AddString_append_new]
    · rfl
  obtain ⟨m6, hm6, e6⟩ : ∃ m6, m6 = (if ent.Caller.Defined then
      (if a.cfg.FunctionKey ≠ "" then FieldMap.insert a.cfg.FunctionKey ent.Caller.Function m5
        else m5)
      else m4) ∧ h6 = h ++ [m6] := by
    refine ⟨_, rfl, ?_⟩
    show (if ent.Caller.Defined = true then
      (if a.cfg.FunctionKey ≠ "" then final.AddString a.cfg.FunctionKey ent.Caller.Function h5
        else h5)
      else h4) = _
    rw [e4, e5, hf]
    split
    · split <;> simp [AddString_append_new]
    · rfl
  obtain ⟨m7, hm7, e7⟩ : ∃ m7, m7 = (if a.cfg.MessageKey ≠ "" then
      FieldMap.insert a.cfg.MessageKey ent.Message m6 else m6) ∧ h7 = h ++ [m7] := by
    refine ⟨_, rfl, ?_⟩
    show (if a.cfg.MessageKey ≠ "" then final.AddString a.cfg.MessageKey ent.Message h6
      else h6) = _
    rw [e6, hf]
    split <;> simp [AddString_append_new]
  obtain ⟨m8, hm8, e8⟩ : ∃ m8, m8 = mergeFields rt a.cfg fields m7 ∧ h8 = h ++ [m8] := by
    refine ⟨_, rfl, ?_⟩
    show addFields rt final fields h7 = _
    rw [e7, hf, addFields_append_new]
  obtain ⟨m9, hm9, e9⟩ : ∃ m9, m9 = (if ent.Stack ≠ "" ∧ a.cfg.StacktraceKey ≠ "" then
      FieldMap.insert a.cfg.StacktraceKey ent.Stack m8 else m8) ∧ h9 = h ++ [m9] := by
    refine ⟨_, rfl, ?_⟩
    show (if ent.Stack ≠ "" ∧ a.cfg.StacktraceKey ≠ "" then
      final.AddString a.cfg.StacktraceKey ent.Stack h8 else h8) = _
    rw [e8, hf]
    split <;> simp [AddString_append_new]
  rw [e9]
  have hfin : m9 = finalMap rt a.cfg ent fields (a.cloneMap h) := by
    subst hm1 hm2 hm3 hm4 hm5 hm6 hm7 hm8 hm9
    rfl
  rw [hfin]
  rfl

/-! ## What the nested JSON encoder returns and what is cut from it -/

theorem utf8ByteSize_eq_utf8Len (s : String) : s.utf8ByteSize = String.utf8Len s.data := by
  cases s
  rfl

theorem framed_extract (J : String) :
    ("\x7b" ++ ("\"\":" ++ J) ++ "\x7d" ++ "\n").utf8ByteSize = J.utf8ByteSize + 6
    ∧ ("\x7b" ++ ("\"\":" ++ J) ++ "\x7d" ++ "\n").extract ⟨4⟩
        ⟨("\x7b" ++ ("\"\":" ++ J) ++ "\x7d" ++ "\n").utf8ByteSize - 1⟩ = J ++ "\x7d" := by
  have hb : "\x7b" ++ ("\"\":" ++ J) ++ "\x7d" ++ "\n"
      = ⟨[Char.ofNat 123, '"', '"', ':'] ++ (J.data ++ [Char.ofNat 125]) ++ ['\n']⟩ := by
    apply String.ext
    simp [String.data_append]
  have h1 : String.utf8Len [Char.ofNat 123, '"', '"', ':'] = 4 := by decide
  have h2 : String.utf8Len (J.data ++ [Char.ofNat 125]) = J.utf8ByteSize + 1 := by
    rw [String.utf8Len_append, utf8ByteSize_eq_utf8Len]
    rfl
  have h3 : String.utf8Len ['\n'] = 1 := by decide
  have hsize : ("\x7b" ++ ("\"\":" ++ J) ++ "\x7d" ++ "\n").utf8ByteSize = J.utf8ByteSize + 6 := by
    rw [hb, String.utf8ByteSize_mk, String.utf8Len_append, String.utf8Len_append, h1, h2, h3]
    omega
  refine ⟨hsize, ?_⟩
  rw [hsize, hb]
  have hx := String.extract_of_valid [Char.ofNat 123, '"', '"', ':'] (J.data ++ [Char.ofNat 125])
    ['\n']
  rw [h1, h2] at hx
  have hpos : J.utf8ByteSize + 6 - 1 = 4 + (J.utf8ByteSize + 1) := by omega
  rw [hpos, hx]
  apply String.ext
  simp [String.data_append]


theorem jsonEncoder.EncodeEntry_after_add (cfg : JSONEncoderConfig) (text : String) :
    jsonEncoder.EncodeEntry { cfg := cfg, buf := "\"\":" ++ text }
      = .ok ("\x7b" ++ ("\"\":" ++ text) ++ "\x7d" ++ "\n") := by
  have hpos : ("\"\":" ++ text).utf8ByteSize > 0 := by
    rw [utf8ByteSize_eq_utf8Len, String.data_append, String.utf8Len_append]
    have h3 : String.utf8Len "\"\":".data = 3 := by decide
    omega
  have hsep : jsonEncoder.addElementSeparator "\x7b" = "\x7b" := by decide
  simp only [jsonEncoder.EncodeEntry, hpos, if_true, hsep, DefaultLineEnding]

theorem jsonEncoder.AddObject_fresh (cfg : JSONEncoderConfig) (marshaler : ObjectMarshaler) :
    jsonEncoder.AddObject { cfg := cfg, buf := "" } "" marshaler
      = match marshaler cfg with
        | .error err => .error err
        | .ok text => .ok { cfg := cfg, buf := "\"\":" ++ text } := by
  have h1 : jsonEncoder.addElementSeparator "" ++ "\"" ++ "" ++ "\":" = "\"\":" := by decide
  have h2 : jsonEncoder.addElementSeparator "\"\":" = "\"\":" := by decide
  simp only [jsonEncoder.AddObject, jsonEncoder.addKey, h1, h2]

theorem jsonEncoder.AddArray_fresh (cfg : JSONEncoderConfig) (marshaler : ArrayMarshaler) :
    jsonEncoder.AddArray { cfg := cfg, buf := "" } "" marshaler
      = match marshaler cfg with
        | .error err => .error err
        | .ok text => .ok { cfg := cfg, buf := "\"\":" ++ text } := by
  have h1 : jsonEncoder.addElementSeparator "" ++ "\"" ++ "" ++ "\":" = "\"\":" := by decide
  have h2 : jsonEncoder.addElementSeparator "\"\":" = "\"\":" := by decide
  simp only [jsonEncoder.AddArray, jsonEncoder.addKey, h1, h2]

theorem AliYunEncoder.MarshalLogObject_ok (a : AliYunEncoder) (marshaler : ObjectMarshaler)
    (J : String) (hJ : marshaler a.newJSONEncoder.cfg = .ok J) :
    a.MarshalLogObject marshaler = .ok (J ++ "\x7d") := by
  have hJ2 : marshaler { EncodeTime := a.cfg.EncodeTime, EncodeDuration := a.cfg.EncodeDuration }
      = .ok J := hJ
  obtain ⟨hsize, hext⟩ := framed_extract J
  have hgt : ("\x7b" ++ ("\"\":" ++ J) ++ "\x7d" ++ "\n").utf8ByteSize > 5 := by omega
  simp only [AliYunEncoder.MarshalLogObject, AliYunEncoder.newJSONEncoder,
    jsonEncoder.AddObject_fresh, hJ2, jsonEncoder.EncodeEntry_after_add, hgt, if_true, hext]

theorem AliYunEncoder.MarshalLogArray_ok (a : AliYunEncoder) (marshaler : ArrayMarshaler)
    (J : String) (hJ : marshaler a.newJSONEncoder.cfg = .ok J) :
    a.MarshalLogArray marshaler = .ok (J ++ "\x7d") := by
  have hJ2 : marshaler { EncodeTime := a.cfg.EncodeTime, EncodeDuration := a.cfg.EncodeDuration }
      = .ok J := hJ
  obtain ⟨hsize, hext⟩ := framed_extract J
  have hgt : ("\x7b" ++ ("\"\":" ++ J) ++ "\x7d" ++ "\n").utf8ByteSize > 5 := by omega
  simp only [AliYunEncoder.MarshalLogArray, AliYunEncoder.newJSONEncoder,
    jsonEncoder.AddArray_fresh, hJ2, jsonEncoder.EncodeEntry_after_add, hgt, if_true, hext]

theorem AliYunEncoder.MarshalLogObject_error (a : AliYunEncoder) (marshaler : ObjectMarshaler)
    (err : String) (hJ : marshaler a.newJSONEncoder.cfg = .error err) :
    a.MarshalLogObject marshaler = .error err := by
  have hJ2 : marshaler { EncodeTime := a.cfg.EncodeTime, EncodeDuration := a.cfg.EncodeDuration }
      = .error err := hJ
  simp only [AliYunEncoder.MarshalLogObject, AliYunEncoder.newJSONEncoder,
    jsonEncoder.AddObject_fresh, hJ2]

theorem AliYunEncoder.MarshalLogArray_error (a : AliYunEncoder) (marshaler : ArrayMarshaler)
    (err : String) (hJ : marshaler a.newJSONEncoder.cfg = .error err) :
    a.MarshalLogArray marshaler = .error err := by
  have hJ2 : marshaler { EncodeTime := a.cfg.EncodeTime, EncodeDuration := a.cfg.EncodeDuration }
      = .error err := hJ
  simp only [AliYunEncoder.MarshalLogArray, AliYunEncoder.newJSONEncoder,
    jsonEncoder.AddArray_fresh, hJ2]

/-! ## Clone isolation -/

theorem AliYunEncoder.EncodeEntryMap_eq (rt : Runtime) (a : AliYunEncoder) (ent : Entry)
    (fields : List Field) (h : Heap) :
    a.EncodeEntryMap rt ent fields h = finalMap rt a.cfg ent fields (a.cloneMap h) := by
  simp only [AliYunEncoder.EncodeEntryMap, AliYunEncoder.EncodeEntry_eq, Heap.read_append_new]

theorem AliYunEncoder.cloneMap_congr (a : AliYunEncoder) (h1 h2 : Heap)
    (hr : Heap.read h1 a.m = Heap.read h2 a.m) : a.cloneMap h1 = a.cloneMap h2 := by
  simp only [AliYunEncoder.cloneMap, hr]

theorem AliYunCore.With_eq (rt : Runtime) (a : AliYunCore) (fields : List Field) (h : Heap) :
    a.With rt fields h
      = ({ config := a.config, client := a.client, enc := { cfg := a.enc.cfg, m := h.length },
           producer := none },
         h ++ [mergeFields rt a.enc.cfg fields (a.enc.cloneMap h)]) := by
  simp only [AliYunCore.With, AliYunCore.clone, AliYunEncoder.clone, Heap.alloc,
    addFields_append_new]

/-- C1 (clone isolation of With). For every adapter `a` whose map is allocated, all field lists
`A`, `B`, every entry `e` and entry fields `F`: after `a.With(A)` and after `With(B)` on the
adapter it returned, the map held by `a` has the content it had before, and the flat map that
the encoder of `a` produces for `(e, F)` is the one it produced before. -/
theorem With_clone_isolation (rt : Runtime) (a : AliYunCore) (A B : List Field) (e : Entry)
    (F : List Field) (h : Heap) (hm : a.enc.m < h.length) :
    Heap.read (a.With rt A h).2 a.enc.m = Heap.read h a.enc.m
    ∧ Heap.read ((a.With rt A h).1.With rt B (a.With rt A h).2).2 a.enc.m = Heap.read h a.enc.m
    ∧ a.enc.EncodeEntryMap rt e F (a.With rt A h).2 = a.enc.EncodeEntryMap rt e F h
    ∧ a.enc.EncodeEntryMap rt e F ((a.With rt A h).1.With rt B (a.With rt A h).2).2
        = a.enc.EncodeEntryMap rt e F h := by
  have r1 : Heap.read (a.With rt A h).2 a.enc.m = Heap.read h a.enc.m := by
    rw [AliYunCore.With_eq]
    exact Heap.read_append_old h _ _ hm
  have r2 : Heap.read ((a.With rt A h).1.With rt B (a.With rt A h).2).2 a.enc.m
      = Heap.read h a.enc.m := by
    rw [AliYunCore.With_eq rt (a.With rt A h).1, AliYunCore.With_eq rt a]
    simp only
    rw [Heap.read_append_old _ _ _
      (by simp only [List.length_append, List.length_singleton]; exact Nat.lt_succ_of_lt hm)]
    exact Heap.read_append_old h _ _ hm
  refine ⟨r1, r2, ?_, ?_⟩
  · rw [AliYunEncoder.EncodeEntryMap_eq, AliYunEncoder.EncodeEntryMap_eq,
      AliYunEncoder.cloneMap_congr _ _ _ r1]
  · rw [AliYunEncoder.EncodeEntryMap_eq, AliYunEncoder.EncodeEntryMap_eq,
      AliYunEncoder.cloneMap_congr _ _ _ r2]

/-- An instance of C1: an adapter over the map `svc = api`, derived twice with the fields
`a = 1` and `svc = web`. -/
theorem With_clone_isolation_witness :
    Heap.read ((sampleCore msgLevelConfig).With sampleRuntime [stringField "a" "1"]
      sampleHeap).2 0 = [("svc", "api")]
    ∧ Heap.read ((((sampleCore msgLevelConfig).With sampleRuntime [stringField "a" "1"]
        sampleHeap).1.With sampleRuntime [stringField "svc" "web"]
        ((sampleCore msgLevelConfig).With sampleRuntime [stringField "a" "1"] sampleHeap).2).2) 0
        = [("svc", "api")]
    ∧ (sampleEncoder msgLevelConfig).EncodeEntryMap sampleRuntime (plainEntry InfoLevel "hello")
        [] ((sampleCore msgLevelConfig).With sampleRuntime [stringField "a" "1"] sampleHeap).2
        = (sampleEncoder msgLevelConfig).EncodeEntryMap sampleRuntime
            (plainEntry InfoLevel "hello") [] sampleHeap
    ∧ (sampleEncoder msgLevelConfig).EncodeEntryMap sampleRuntime (plainEntry InfoLevel "hello")
        [] ((((sampleCore msgLevelConfig).With sampleRuntime [stringField "a" "1"]
        sampleHeap).1.With sampleRuntime [stringField "svc" "web"]
        ((sampleCore msgLevelConfig).With sampleRuntime [stringField "a" "1"] sampleHeap).2).2)
        = (sampleEncoder msgLevelConfig).EncodeEntryMap sampleRuntime
            (plainEntry InfoLevel "hello") [] sampleHeap :=
  With_clone_isolation sampleRuntime (sampleCore msgLevelConfig) [stringField "a" "1"]
    [stringField "svc" "web"] (plainEntry InfoLevel "hello") [] sampleHeap (by decide)

theorem FieldMap.lookup_foldl_insert_none (k : String) (l acc : FieldMap)
    (hl : FieldMap.lookup k l = none) (ha : FieldMap.lookup k acc = none) :
    FieldMap.lookup k (l.foldl (fun m kv => FieldMap.insert kv.1 kv.2 m) acc) = none := by
  induction l generalizing acc with
  | nil => exact ha
  | cons kv t ih =>
    obtain ⟨k1, v⟩ := kv
    have hk : k1 ≠ k := by
      intro hk
      simp [FieldMap.lookup, hk] at hl
    have ht : FieldMap.lookup k t = none := by
      simpa [FieldMap.lookup, hk] using hl
    simp only [List.foldl_cons]
    exact ih _ ht (by rw [FieldMap.lookup_insert_ne _ _ _ _ hk]; exact ha)

theorem AliYunEncoder.lookup_cloneMap_none (a : AliYunEncoder) (h : Heap) (k : String)
    (hk : FieldMap.lookup k (Heap.read h a.m) = none) :
    FieldMap.lookup k (a.cloneMap h) = none :=
  FieldMap.lookup_foldl_insert_none k _ [] hk rfl

theorem lookup_applyBinding_ne (o : Option (String × String)) (k : String) (m : FieldMap)
    (hk : ∀ kv, o = some kv → kv.1 ≠ k) :
    FieldMap.lookup k (applyBinding o m) = FieldMap.lookup k m := by
  cases o with
  | none => rfl
  | some kv => exact FieldMap.lookup_insert_ne _ _ _ _ (hk kv rfl)

theorem lookup_mergeFields_ne (rt : Runtime) (cfg : EncoderConfig) (fields : List Field)
    (k : String) (m : FieldMap) (hk : k ∉ fieldKeys rt cfg fields) :
    FieldMap.lookup k (mergeFields rt cfg fields m) = FieldMap.lookup k m := by
  induction fields generalizing m with
  | nil => rfl
  | cons f fs ih =>
    have hstep : mergeFields rt cfg (f :: fs) m
        = mergeFields rt cfg fs (applyBinding (f.binding rt cfg) m) := rfl
    have hfs : k ∉ fieldKeys rt cfg fs := by
      intro hmem
      apply hk
      simp only [fieldKeys, List.filterMap_cons]
      cases hb : Option.map Prod.fst (f.binding rt cfg) with
      | none => simpa [fieldKeys] using hmem
      | some x => exact List.mem_cons_of_mem _ (by simpa [fieldKeys] using hmem)
    rw [hstep, ih _ hfs]
    apply lookup_applyBinding_ne
    intro kv hkv hkk
    apply hk
    simp only [fieldKeys, List.filterMap_cons, hkv, Option.map_some']
    rw [hkk]
    exact List.mem_cons_self _ _

theorem lookup_metaMap_ne (rt : Runtime) (cfg : EncoderConfig) (ent : Entry) (k : String)
    (m : FieldMap) (hk : k ∉ cfg.keyNames) :
    FieldMap.lookup k (metaMap rt cfg ent m) = FieldMap.lookup k m := by
  simp only [EncoderConfig.keyNames, List.mem_cons, List.mem_singleton, not_or,
    List.not_mem_nil, or_false] at hk
  obtain ⟨h1, h2, h3, h4, h5, h6, -⟩ := hk
  unfold metaMap
  lift_lets
  intro m1 m2 m3 m4 m5
  have e1 : FieldMap.lookup k m1 = FieldMap.lookup k m := by
    show FieldMap.lookup k (if cfg.LevelKey ≠ "" then _ else m) = _
    split
    · exact FieldMap.lookup_insert_ne _ _ _ _ (Ne.symm h2)
    · rfl
  have e2 : FieldMap.lookup k m2 = FieldMap.lookup k m := by
    show FieldMap.lookup k (if cfg.TimeKey ≠ "" then _ else m1) = _
    split
    · rw [FieldMap.lookup_insert_ne _ _ _ _ (Ne.symm h3), e1]
    · exact e1
  have e3 : FieldMap.lookup k m3 = FieldMap.lookup k m := by
    show FieldMap.lookup k (if ent.LoggerName ≠ "" ∧ cfg.NameKey ≠ "" then _ else m2) = _
    split
    · rw [FieldMap.lookup_insert_ne _ _ _ _ (Ne.symm h4), e2]
    · exact e2
  have e4 : FieldMap.lookup k m4 = FieldMap.lookup k m := by
    show FieldMap.lookup k (if cfg.CallerKey ≠ "" then
      (match cfg.EncodeCaller with
        | some encodeCaller => FieldMap.insert cfg.CallerKey (encodeCaller ent.Caller) m3
        | none => m3) else m3) = _
    split
    · cases cfg.EncodeCaller with
      | none => exact e3
      | some g => rw [FieldMap.lookup_insert_ne _ _ _ _ (Ne.symm h5), e3]
    · exact e3
  have e5 : FieldMap.lookup k m5 = FieldMap.lookup k m := by
    show FieldMap.lookup k (if ent.Caller.Defined = true then
      (if cfg.FunctionKey ≠ "" then _ else m4) else m3) = _
    split
    · split
      · rw [FieldMap.lookup_insert_ne _ _ _ _ (Ne.symm h6), e4]
      · exact e4
    · exact e3
  show FieldMap.lookup k (if cfg.MessageKey ≠ "" then _ else m5) = _
  split
  · rw [FieldMap.lookup_insert_ne _ _ _ _ (Ne.symm h1), e5]
  · exact e5

theorem lookup_finalMap_ne (rt : Runtime) (cfg : EncoderConfig) (ent : Entry)
    (fields : List Field) (k : String) (m : FieldMap) (hf : k ∉ fieldKeys rt cfg fields)
    (hk : k ∉ cfg.keyNames) :
    FieldMap.lookup k (finalMap rt cfg ent fields m) = FieldMap.lookup k m := by
  have hs : cfg.StacktraceKey ≠ k := by
    intro hs
    apply hk
    simp [EncoderConfig.keyNames, hs]
  have hbody : FieldMap.lookup k
      (mergeFields rt cfg fields (metaMap rt cfg ent (mergeFields rt cfg fields m)))
      = FieldMap.lookup k m := by
    rw [lookup_mergeFields_ne _ _ _ _ _ hf, lookup_metaMap_ne _ _ _ _ _ hk,
      lookup_mergeFields_ne _ _ _ _ _ hf]
  show FieldMap.lookup k (if ent.Stack ≠ "" ∧ cfg.StacktraceKey ≠ "" then _ else _) = _
  split
  · rw [FieldMap.lookup_insert_ne _ _ _ _ hs, hbody]
  · exact hbody

/-- C2 (EncodeEntry does not mutate its encoder). For every base encoder `b` whose map is
allocated, entries `e1`, `e2` and field lists `F1`, `F2`: the map of `b` has the same content
after `EncodeEntry(e1, F1)` as before; `EncodeEntry(e2, F2)` run after it returns the same map
as run alone; and a key that is not bound in the map of `b`, is not written for `F2` and is
none of the configured key names is absent from the map returned for `e2`, whatever `F1`
holds. -/
theorem EncodeEntry_leaves_encoder (rt : Runtime) (b : AliYunEncoder) (e1 e2 : Entry)
    (F1 F2 : List Field) (h : Heap) (hm : b.m < h.length) :
    Heap.read (b.EncodeEntry rt e1 F1 h).2 b.m = Heap.read h b.m
    ∧ b.EncodeEntryMap rt e2 F2 (b.EncodeEntry rt e1 F1 h).2 = b.EncodeEntryMap rt e2 F2 h
    ∧ (b.EncodeEntry rt e2 F2 (b.EncodeEntry rt e1 F1 h).2).1.2 = none
    ∧ ∀ k : String, FieldMap.lookup k (Heap.read h b.m) = none → k ∉ fieldKeys rt b.cfg F2 →
        k ∉ b.cfg.keyNames →
        FieldMap.lookup k (b.EncodeEntryMap rt e2 F2 (b.EncodeEntry rt e1 F1 h).2) = none := by
  have r1 : Heap.read (b.EncodeEntry rt e1 F1 h).2 b.m = Heap.read h b.m := by
    rw [AliYunEncoder.EncodeEntry_eq]
    exact Heap.read_append_old h _ _ hm
  have r2 : b.EncodeEntryMap rt e2 F2 (b.EncodeEntry rt e1 F1 h).2 = b.EncodeEntryMap rt e2 F2 h := by
    rw [AliYunEncoder.EncodeEntryMap_eq, AliYunEncoder.EncodeEntryMap_eq,
      AliYunEncoder.cloneMap_congr _ _ _ r1]
  refine ⟨r1, r2, ?_, ?_⟩
  · rw [AliYunEncoder.EncodeEntry_eq rt b e2]
  · intro k hb hf hk
    rw [r2, AliYunEncoder.EncodeEntryMap_eq, lookup_finalMap_ne _ _ _ _ _ _ hf hk]
    exact AliYunEncoder.lookup_cloneMap_none b h k hb

/-- An instance of C2: the key `only1` of the first field list is absent from the map returned
for the second entry. -/
theorem EncodeEntry_leaves_encoder_witness :
    Heap.read ((sampleEncoder msgLevelConfig).EncodeEntry sampleRuntime
        (plainEntry InfoLevel "one") [stringField "only1" "x"] sampleHeap).2 0
        = [("svc", "api")]
    ∧ FieldMap.lookup "only1" ((sampleEncoder msgLevelConfig).EncodeEntryMap sampleRuntime
        (plainEntry InfoLevel "two") [stringField "user" "bob"]
        ((sampleEncoder msgLevelConfig).EncodeEntry sampleRuntime
          (plainEntry InfoLevel "one") [stringField "only1" "x"] sampleHeap).2) = none :=
  ⟨(EncodeEntry_leaves_encoder sampleRuntime (sampleEncoder msgLevelConfig)
      (plainEntry InfoLevel "one") (plainEntry InfoLevel "two") [stringField "only1" "x"]
      [stringField "user" "bob"] sampleHeap (by decide)).1,
   (EncodeEntry_leaves_encoder sampleRuntime (sampleEncoder msgLevelConfig)
      (plainEntry InfoLevel "one") (plainEntry InfoLevel "two") [stringField "only1" "x"]
      [stringField "user" "bob"] sampleHeap (by decide)).2.2.2 "only1" (by decide) (by decide)
      (by decide)⟩

/-! ## Finalization end to end -/

theorem cloneMap_NewAliYunEncoder (cfg : EncoderConfig) (h : Heap) :
    (NewAliYunEncoder cfg h).1.cloneMap (NewAliYunEncoder cfg h).2 = [] := by
  simp only [NewAliYunEncoder, Heap.alloc, AliYunEncoder.cloneMap, Heap.read_append_new]
  rfl

theorem finalMap_end_to_end (rt : Runtime) (t : Time) (c : EntryCaller) (hc : c.Defined = false) :
    finalMap rt msgLevelConfig
      { Level := InfoLevel, Time := t, LoggerName := "", Message := "hello", Caller := c,
        Stack := "" } [stringField "user" "alice"] []
      = [("user", "alice"), ("msg", "hello"), ("level", "info")] := by
  simp [finalMap, metaMap, mergeFields, hc, msgLevelConfig, emptyConfig, Field.binding,
    stringField, Field.AddTo, Field.dispatch, AliYunEncoder.AddString, Heap.read, Heap.write,
    FieldMap.insert, FieldMap.erase, applyBinding, Level.String, InfoLevel, DebugLevel]

theorem EncodeEntryMap_end_to_end (rt : Runtime) (h : Heap) (ent : Entry)
    (hl : ent.Level = InfoLevel) (hn : ent.LoggerName = "") (hmsg : ent.Message = "hello")
    (hc : ent.Caller.Defined = false) (hs : ent.Stack = "") :
    (NewAliYunEncoder msgLevelConfig h).1.EncodeEntryMap rt ent [stringField "user" "alice"]
        (NewAliYunEncoder msgLevelConfig h).2
      = [("user", "alice"), ("msg", "hello"), ("level", "info")] := by
  rw [AliYunEncoder.EncodeEntryMap_eq, cloneMap_NewAliYunEncoder]
  obtain ⟨l, t, n, msg, c, s⟩ := ent
  simp only at hl hn hmsg hc hs
  subst hl hn hmsg hs
  exact finalMap_end_to_end rt t c hc

/-- C3 (end-to-end finalization). With an encoder made by `NewAliYunEncoder` for the
configuration with message key `msg`, level key `level`, every other key name empty and no
formatter, `EncodeEntry` of an info-level entry with message `hello`, no logger name, no caller
and no stack, and the one string field `user = alice`, returns no error and a map that holds
exactly `msg = hello`, `level = info` and `user = alice`: three keys, none of them `time`. -/
theorem EncodeEntry_end_to_end (rt : Runtime) (h : Heap) (t : Time) (pc : Nat) (file : String)
    (line : Int) (fn : String) :
    ((NewAliYunEncoder msgLevelConfig h).1.EncodeEntry rt
        { Level := InfoLevel, Time := t, LoggerName := "", Message := "hello",
          Caller := { Defined := false, PC := pc, File := file, Line := line, Function := fn },
          Stack := "" }
        [stringField "user" "alice"] (NewAliYunEncoder msgLevelConfig h).2).1.2 = none
    ∧ List.Perm
        ((NewAliYunEncoder msgLevelConfig h).1.EncodeEntryMap rt
          { Level := InfoLevel, Time := t, LoggerName := "", Message := "hello",
            Caller := { Defined := false, PC := pc, File := file, Line := line, Function := fn },
            Stack := "" }
          [stringField "user" "alice"] (NewAliYunEncoder msgLevelConfig h).2)
        [("msg", "hello"), ("level", "info"), ("user", "alice")]
    ∧ (FieldMap.keys
        ((NewAliYunEncoder msgLevelConfig h).1.EncodeEntryMap rt
          { Level := InfoLevel, Time := t, LoggerName := "", Message := "hello",
            Caller := { Defined := false, PC := pc, File := file, Line := line, Function := fn },
            Stack := "" }
          [stringField "user" "alice"] (NewAliYunEncoder msgLevelConfig h).2)).length = 3
    ∧ FieldMap.lookup "time"
        ((NewAliYunEncoder msgLevelConfig h).1.EncodeEntryMap rt
          { Level := InfoLevel, Time := t, LoggerName := "", Message := "hello",
            Caller := { Defined := false, PC := pc, File := file, Line := line, Function := fn },
            Stack := "" }
          [stringField "user" "alice"] (NewAliYunEncoder msgLevelConfig h).2) = none := by
  rw [EncodeEntryMap_end_to_end rt h _ rfl rfl rfl rfl rfl]
  refine ⟨?_, by decide, by decide, by decide⟩
  rw [AliYunEncoder.EncodeEntry_eq]

/-! ## The adapter: failures, nested values, collaborators, levels -/

/-- The record that `Write` builds for an entry. -/
theorem AliYunCore.Write_eq (rt : Runtime) (a : AliYunCore) (entry : Entry) (fields : List Field)
    (now : Int) (h : Heap) (t : Transport) (p : ProducerPtr) (hp : a.producer = some p) :
    a.Write rt entry fields now h t
      = (.returned (t.reply
            { producer := p, project := a.config.ProjectName, logstore := a.config.LogStore,
              topic := a.config.Topic, source := a.config.Source,
              log := { Time := wrapUnsigned 32 now,
                       Contents := (a.enc.EncodeEntryMap rt entry fields h).map
                         (fun kv => { Key := kv.1, Value := kv.2 }) } }),
         (a.enc.EncodeEntry rt entry fields h).2,
         { t with sent := t.sent ++
            [{ producer := p, project := a.config.ProjectName, logstore := a.config.LogStore,
               topic := a.config.Topic, source := a.config.Source,
               log := { Time := wrapUnsigned 32 now,
                        Contents := (a.enc.EncodeEntryMap rt entry fields h).map
                          (fun kv => { Key := kv.1, Value := kv.2 }) } }] }) := by
  have he : (a.enc.EncodeEntry rt entry fields h).1.2 = none := by
    rw [AliYunEncoder.EncodeEntry_eq]
  simp only [AliYunCore.Write, he, hp, AliYunEncoder.EncodeEntryMap]

theorem AliYunCore.Write_nil_producer (rt : Runtime) (a : AliYunCore) (entry : Entry)
    (fields : List Field) (now : Int) (h : Heap) (t : Transport) (hp : a.producer = none) :
    a.Write rt entry fields now h t
      = (.panicked, (a.enc.EncodeEntry rt entry fields h).2, t) := by
  have he : (a.enc.EncodeEntry rt entry fields h).1.2 = none := by
    rw [AliYunEncoder.EncodeEntry_eq]
  simp only [AliYunCore.Write, he, hp]

/-- C4, as stated, fails: the marshalling of the object field `o` fails with `boom`, yet
`EncodeEntry` returns a nil error and a map (which holds `oError = boom`), and `Write` returns
nil and hands one record to the producer. -/
theorem encoding_failure_is_not_returned :
    (sampleEncoder emptyConfig).MarshalLogObject (failingObject "boom") = .error "boom"
    ∧ ((sampleEncoder emptyConfig).EncodeEntry sampleRuntime (plainEntry InfoLevel "hello")
        [{ Key := "o", Value := .ObjectMarshalerType (failingObject "boom") }] sampleHeap).1.2
        = none
    ∧ (sampleEncoder emptyConfig).EncodeEntryMap sampleRuntime (plainEntry InfoLevel "hello")
        [{ Key := "o", Value := .ObjectMarshalerType (failingObject "boom") }] sampleHeap
        = [("oError", "boom"), ("svc", "api")]
    ∧ ((sampleCore emptyConfig).Write sampleRuntime (plainEntry InfoLevel "hello")
        [{ Key := "o", Value := .ObjectMarshalerType (failingObject "boom") }] 0 sampleHeap
        emptyTransport).1 = .returned none
    ∧ ((sampleCore emptyConfig).Write sampleRuntime (plainEntry InfoLevel "hello")
        [{ Key := "o", Value := .ObjectMarshalerType (failingObject "boom") }] 0 sampleHeap
        emptyTransport).2.2.sent.length = 1 := by
  refine ⟨rfl, rfl, ?_, rfl, rfl⟩
  decide


/-- C4 amended. Encoding failures are recorded, not returned: `EncodeEntry` returns a nil error
for every encoder, entry and field list; `Write` on an adapter that has a producer submits the
record built from the returned map and returns what `SendLog` answers; and for a nested-object,
nested-array or reflected field whose serialization fails with `err`, `AddTo` stores `err` under
the key of the field followed by `Error`. -/
theorem encoding_failure_is_recorded (rt : Runtime) (a : AliYunCore) (ent : Entry)
    (F : List Field) (now : Int) (h : Heap) (t : Transport) (p : ProducerPtr)
    (hp : a.producer = some p) :
    (a.enc.EncodeEntry rt ent F h).1.2 = none
    ∧ (∃ sub : Submission,
        (a.Write rt ent F now h t).1 = .returned (t.reply sub)
        ∧ (a.Write rt ent F now h t).2.2.sent = t.sent ++ [sub]
        ∧ sub.producer = p
        ∧ sub.log.Contents = (a.enc.EncodeEntryMap rt ent F h).map
            (fun kv => { Key := kv.1, Value := kv.2 }))
    ∧ (∀ (key : String) (v : ObjectMarshaler) (err : String) (enc : AliYunEncoder) (h1 : Heap),
        enc.MarshalLogObject v = .error err →
        Field.AddTo rt { Key := key, Value := .ObjectMarshalerType v } enc h1
          = enc.AddString (key ++ "Error") err h1)
    ∧ (∀ (key : String) (v : ArrayMarshaler) (err : String) (enc : AliYunEncoder) (h1 : Heap),
        enc.MarshalLogArray v = .error err →
        Field.AddTo rt { Key := key, Value := .ArrayMarshalerType v } enc h1
          = enc.AddString (key ++ "Error") err h1)
    ∧ (∀ (key : String) (v : Reflected) (err : String) (enc : AliYunEncoder) (h1 : Heap),
        enc.encodeReflected v = .error err →
        Field.AddTo rt { Key := key, Value := .ReflectType v } enc h1
          = enc.AddString (key ++ "Error") err h1) := by
  refine ⟨?_, ?_, ?_, ?_, ?_⟩
  · rw [AliYunEncoder.EncodeEntry_eq]
  · rw [AliYunCore.Write_eq rt a ent F now h t p hp]
    exact ⟨_, rfl, rfl, rfl, rfl⟩
  · intro key v err enc h1 hv
    simp only [Field.AddTo, Field.dispatch, AliYunEncoder.AddObject, hv]
  · intro key v err enc h1 hv
    simp only [Field.AddTo, Field.dispatch, AliYunEncoder.AddArray, hv]
  · intro key v err enc h1 hv
    simp only [Field.AddTo, Field.dispatch, AliYunEncoder.AddReflected, hv]

/-- An instance of the amended C4: the failing object field `o` on the sample adapter. -/
theorem encoding_failure_is_recorded_witness :
    ((sampleEncoder emptyConfig).EncodeEntry sampleRuntime (plainEntry InfoLevel "hello")
        [{ Key := "o", Value := .ObjectMarshalerType (failingObject "boom") }] sampleHeap).1.2
        = none
    ∧ Field.AddTo sampleRuntime { Key := "o", Value := .ObjectMarshalerType (failingObject "boom") }
        (sampleEncoder emptyConfig) sampleHeap
        = (sampleEncoder emptyConfig).AddString "oError" "boom" sampleHeap :=
  ⟨(encoding_failure_is_recorded sampleRuntime (sampleCore emptyConfig)
      (plainEntry InfoLevel "hello")
      [{ Key := "o", Value := .ObjectMarshalerType (failingObject "boom") }] 0 sampleHeap
      emptyTransport 7 rfl).1,
   (encoding_failure_is_recorded sampleRuntime (sampleCore emptyConfig)
      (plainEntry InfoLevel "hello") [] 0 sampleHeap emptyTransport 7 rfl).2.2.1
      "o" (failingObject "boom") "boom" (sampleEncoder emptyConfig) sampleHeap rfl⟩

/-- C5: the code does not do what the claim says. For an object (array) marshaler that the
throwaway encoder serializes to `J`, `MarshalLogObject` (`MarshalLogArray`) returns `J` followed
by the closing brace of the wrapper: the slice drops the four leading bytes and the line feed
only. `AddObject` and `AddArray` store that text. -/
theorem MarshalLog_keeps_wrapper_brace (a : AliYunEncoder) (key J : String) (h : Heap)
    (hm : a.m < h.length) :
    (∀ marshaler : ObjectMarshaler, marshaler a.newJSONEncoder.cfg = .ok J →
      a.MarshalLogObject marshaler = .ok (J ++ "\x7d")
      ∧ FieldMap.lookup key (Heap.read (a.AddObject key marshaler h).2 a.m) = some (J ++ "\x7d"))
    ∧ (∀ marshaler : ArrayMarshaler, marshaler a.newJSONEncoder.cfg = .ok J →
      a.MarshalLogArray marshaler = .ok (J ++ "\x7d")
      ∧ FieldMap.lookup key (Heap.read (a.AddArray key marshaler h).2 a.m) = some (J ++ "\x7d")) := by
  constructor
  · intro marshaler hJ
    have hr := AliYunEncoder.MarshalLogObject_ok a marshaler J hJ
    refine ⟨hr, ?_⟩
    simp only [AliYunEncoder.AddObject, hr, AddString_eq_modify]
    rw [Heap.read_modify_self _ _ _ hm, FieldMap.lookup_insert_self]
  · intro marshaler hJ
    have hr := AliYunEncoder.MarshalLogArray_ok a marshaler J hJ
    refine ⟨hr, ?_⟩
    simp only [AliYunEncoder.AddArray, hr, AddString_eq_modify]
    rw [Heap.read_modify_self _ _ _ hm, FieldMap.lookup_insert_self]

/-- The failing inputs of C5: the object that serializes to `{"a":1}` comes back as `{"a":1}}`,
the empty object as `{}}` and the empty array as `[]}`. -/
theorem MarshalLog_keeps_wrapper_brace_witness :
    (sampleEncoder emptyConfig).MarshalLogObject (textObject "\x7b\"a\":1\x7d")
        = .ok "\x7b\"a\":1\x7d\x7d"
    ∧ (sampleEncoder emptyConfig).MarshalLogObject (textObject "\x7b\x7d") = .ok "\x7b\x7d\x7d"
    ∧ (sampleEncoder emptyConfig).MarshalLogArray (textObject "[]") = .ok "[]\x7d"
    ∧ FieldMap.lookup "o" (Heap.read ((sampleEncoder emptyConfig).AddObject "o"
        (textObject "\x7b\"a\":1\x7d") sampleHeap).2 0) = some "\x7b\"a\":1\x7d\x7d" :=
  ⟨((MarshalLog_keeps_wrapper_brace (sampleEncoder emptyConfig) "o" "\x7b\"a\":1\x7d"
      sampleHeap (by decide)).1 (textObject "\x7b\"a\":1\x7d") rfl).1,
   ((MarshalLog_keeps_wrapper_brace (sampleEncoder emptyConfig) "o" "\x7b\x7d"
      sampleHeap (by decide)).1 (textObject "\x7b\x7d") rfl).1,
   ((MarshalLog_keeps_wrapper_brace (sampleEncoder emptyConfig) "o" "[]"
      sampleHeap (by decide)).2 (textObject "[]") rfl).1,
   ((MarshalLog_keeps_wrapper_brace (sampleEncoder emptyConfig) "o" "\x7b\"a\":1\x7d"
      sampleHeap (by decide)).1 (textObject "\x7b\"a\":1\x7d") rfl).2⟩

/-- C6: the code does not do what the claim says. `With` keeps the destination identifiers,
the level enabler, the client and the encoder configuration, but the adapter it returns has a
nil producer whatever the producer of the original is; `Write` on the derived adapter panics on
the nil producer and submits nothing. -/
theorem With_loses_producer (rt : Runtime) (a : AliYunCore) (F : List Field) (h : Heap)
    (ent : Entry) (G : List Field) (now : Int) (t : Transport) :
    (a.With rt F h).1.producer = none
    ∧ (a.With rt F h).1.config = a.config
    ∧ (a.With rt F h).1.client = a.client
    ∧ (a.With rt F h).1.enc.cfg = a.enc.cfg
    ∧ ((a.With rt F h).1.Write rt ent G now (a.With rt F h).2 t).1 = .panicked
    ∧ ((a.With rt F h).1.Write rt ent G now (a.With rt F h).2 t).2.2 = t := by
  have hp : (a.With rt F h).1.producer = none := by rw [AliYunCore.With_eq]
  refine ⟨hp, ?_, ?_, ?_, ?_, ?_⟩
  · rw [AliYunCore.With_eq]
  · rw [AliYunCore.With_eq]
  · rw [AliYunCore.With_eq]
  · rw [AliYunCore.Write_nil_producer _ _ _ _ _ _ _ hp]
  · rw [AliYunCore.Write_nil_producer _ _ _ _ _ _ _ hp]

/-- C7 (Check filters by level). For an entry whose level the enabler of the adapter does not
enable, `Check` returns the checked entry it was given; for an entry whose level is enabled it
returns the result of `AddCore` on that checked entry with the entry and this adapter, whose
list of cores is the old one followed by the adapter. -/
theorem Check_filters_by_level (a : AliYunCore) (ent : Entry) (ce : Option CheckedEntry) :
    (a.config.LevelEnabler ent.Level = false → a.Check ent ce = ce)
    ∧ (a.config.LevelEnabler ent.Level = true →
        a.Check ent ce = CheckedEntry.AddCore ce ent a
        ∧ ∃ c : CheckedEntry, a.Check ent ce = some c
            ∧ c.cores = (match ce with | none => [] | some c0 => c0.cores) ++ [a]
            ∧ c.Entry = (match ce with | none => ent | some c0 => c0.Entry)) := by
  constructor
  · intro hd
    simp [AliYunCore.Check, AliYunCore.Enabled, hd]
  · intro he
    have hc : a.Check ent ce = CheckedEntry.AddCore ce ent a := by
      simp [AliYunCore.Check, AliYunCore.Enabled, he]
    refine ⟨hc, ?_⟩
    rw [hc]
    cases ce with
    | none => exact ⟨_, rfl, rfl, rfl⟩
    | some c0 => exact ⟨_, rfl, rfl, rfl⟩

/-- An instance of C7: the sample adapter enables info and not debug. -/
theorem Check_filters_by_level_witness :
    (sampleCore emptyConfig).Check (plainEntry DebugLevel "d") none = none
    ∧ (sampleCore emptyConfig).Check (plainEntry InfoLevel "i") none
        = CheckedEntry.AddCore none (plainEntry InfoLevel "i") (sampleCore emptyConfig) :=
  ⟨(Check_filters_by_level (sampleCore emptyConfig) (plainEntry DebugLevel "d") none).1 rfl,
   ((Check_filters_by_level (sampleCore emptyConfig) (plainEntry InfoLevel "i") none).2 rfl).1⟩

/-- C8, as stated, fails: the sample adapter does not enable the debug level, and `Write` of a
debug entry hands one record to the producer. -/
theorem Write_ignores_level :
    (sampleCore emptyConfig).Enabled DebugLevel = false
    ∧ ((sampleCore emptyConfig).Write sampleRuntime (plainEntry DebugLevel "d") [] 0 sampleHeap
        emptyTransport).2.2.sent.length = 1
    ∧ ((sampleCore emptyConfig).Write sampleRuntime (plainEntry DebugLevel "d") [] 0 sampleHeap
        emptyTransport).1 = .returned none := by
  refine ⟨rfl, rfl, rfl⟩

/-- C8 amended. Disabled levels are stopped by `Check`, not by `Write`: for an entry whose level
is not enabled, `Check` returns the checked entry unchanged, so the checked entry that starts
from nil stays nil and its `Write` changes neither the heap nor the transport (no record is
submitted); `Write` of the adapter makes no level check, and on an adapter with a producer it
submits exactly one record for the entry. -/
theorem disabled_level_stops_at_Check (rt : Runtime) (a : AliYunCore) (ent : Entry)
    (ce : Option CheckedEntry) (F : List Field) (now : Int) (h : Heap) (t : Transport)
    (hd : a.Enabled ent.Level = false) :
    a.Check ent ce = ce
    ∧ CheckedEntry.Write rt (a.Check ent none) F now h t = (h, t)
    ∧ (CheckedEntry.Write rt (a.Check ent none) F now h t).2.sent.length = t.sent.length
    ∧ (∀ p : ProducerPtr, a.producer = some p →
        (a.Write rt ent F now h t).2.2.sent.length = t.sent.length + 1) := by
  have hc : ∀ c, a.Check ent c = c := fun c => by simp [AliYunCore.Check, hd]
  refine ⟨hc ce, ?_, ?_, ?_⟩
  · rw [hc]
    rfl
  · rw [hc]
    rfl
  · intro p hp
    rw [AliYunCore.Write_eq rt a ent F now h t p hp]
    simp

/-- An instance of the amended C8: a debug entry on the sample adapter. -/
theorem disabled_level_stops_at_Check_witness :
    (sampleCore emptyConfig).Check (plainEntry DebugLevel "d") none = none
    ∧ (CheckedEntry.Write sampleRuntime
        ((sampleCore emptyConfig).Check (plainEntry DebugLevel "d") none) [] 0 sampleHeap
        emptyTransport).2.sent.length = 0 :=
  ⟨(disabled_level_stops_at_Check sampleRuntime (sampleCore emptyConfig)
      (plainEntry DebugLevel "d") none [] 0 sampleHeap emptyTransport rfl).1,
   (disabled_level_stops_at_Check sampleRuntime (sampleCore emptyConfig)
      (plainEntry DebugLevel "d") none [] 0 sampleHeap emptyTransport rfl).2.2.1⟩

/-! ## Floats and complex numbers -/

theorem lookup_AddString (a : AliYunEncoder) (key value : String) (h : Heap)
    (hm : a.m < h.length) :
    FieldMap.lookup key (Heap.read (a.AddString key value h) a.m) = some value := by
  rw [AddString_eq_modify, Heap.read_modify_self _ _ _ hm, FieldMap.lookup_insert_self]

theorem Float32.toFloat64_IsNaN (f : Float32) (hf : f.IsNaN = true) :
    f.toFloat64.IsNaN = true := by
  simp only [Float32.IsNaN, Bool.and_eq_true, decide_eq_true_eq] at hf
  obtain ⟨he, hfr⟩ := hf
  simp [Float32.toFloat64, Float64.IsNaN, he, hfr]

theorem Float32.toFloat64_IsInf (f : Float32) (positive : Bool) (hf : f.IsInf positive = true) :
    f.toFloat64.IsNaN = false ∧ f.toFloat64.IsInf positive = true := by
  simp only [Float32.IsInf, Bool.and_eq_true, decide_eq_true_eq] at hf
  obtain ⟨⟨he, hfr⟩, hs⟩ := hf
  simp [Float32.toFloat64, Float64.IsNaN, Float64.IsInf, he, hfr, hs]

theorem Float64.IsInf_not_IsNaN (f : Float64) (positive : Bool) (hf : f.IsInf positive = true) :
    f.IsNaN = false := by
  simp only [Float64.IsInf, Bool.and_eq_true, decide_eq_true_eq] at hf
  obtain ⟨⟨he, hfr⟩, hs⟩ := hf
  simp [Float64.IsNaN, he, hfr]

theorem formatFloat_NaN (rt : Runtime) (a : AliYunEncoder) (f : Float64) (bitSize : Nat)
    (hf : f.IsNaN = true) : a.formatFloat rt f bitSize = "\"NaN\"" := by
  simp [AliYunEncoder.formatFloat, hf]

theorem formatFloat_posInf (rt : Runtime) (a : AliYunEncoder) (f : Float64) (bitSize : Nat)
    (hf : f.IsInf true = true) : a.formatFloat rt f bitSize = "\"+Inf\"" := by
  simp [AliYunEncoder.formatFloat, hf, Float64.IsInf_not_IsNaN f true hf]

theorem formatFloat_negInf (rt : Runtime) (a : AliYunEncoder) (f : Float64) (bitSize : Nat)
    (hf : f.IsInf false = true) : a.formatFloat rt f bitSize = "\"-Inf\"" := by
  have hn := Float64.IsInf_not_IsNaN f false hf
  have hp : f.IsInf true = false := by
    simp only [Float64.IsInf, Bool.and_eq_true, decide_eq_true_eq] at hf
    obtain ⟨⟨he, hfr⟩, hs⟩ := hf
    simp [Float64.IsInf, he, hfr]
    simpa using hs
  simp [AliYunEncoder.formatFloat, hf, hn, hp]

/-- C9, as stated, fails: for a NaN, `AddFloat64` stores the five characters `"NaN"`, double
quotes included, and not the three characters `NaN`; likewise six characters for the
infinities. -/
theorem AddFloat64_NaN_is_quoted :
    FieldMap.lookup "k" (Heap.read ((sampleEncoder emptyConfig).AddFloat64 sampleRuntime "k"
        floatNaN sampleHeap) 0) = some "\"NaN\""
    ∧ FieldMap.lookup "k" (Heap.read ((sampleEncoder emptyConfig).AddFloat64 sampleRuntime "k"
        floatNaN sampleHeap) 0) ≠ some "NaN"
    ∧ ("\"NaN\"".length = 5 ∧ '"' ∈ "\"NaN\"".data)
    ∧ FieldMap.lookup "k" (Heap.read ((sampleEncoder emptyConfig).AddFloat32 sampleRuntime "k"
        float32PosInf sampleHeap) 0) = some "\"+Inf\""
    ∧ FieldMap.lookup "k" (Heap.read ((sampleEncoder emptyConfig).AddFloat64 sampleRuntime "k"
        floatNegInf sampleHeap) 0) = some "\"-Inf\"" := by
  decide

/-- C9 amended. For every key, `AddFloat64` and `AddFloat32` store for a NaN the string made of
a double quote, `NaN` and a double quote (five characters), for positive infinity a double
quote, `+Inf` and a double quote, and for negative infinity a double quote, `-Inf` and a double
quote (six characters each): the quote characters are part of the stored value. -/
theorem AddFloat_special_values (rt : Runtime) (a : AliYunEncoder) (key : String) (h : Heap)
    (hm : a.m < h.length) :
    (∀ f : Float64, f.IsNaN = true →
      FieldMap.lookup key (Heap.read (a.AddFloat64 rt key f h) a.m) = some "\"NaN\"")
    ∧ (∀ f : Float64, f.IsInf true = true →
      FieldMap.lookup key (Heap.read (a.AddFloat64 rt key f h) a.m) = some "\"+Inf\"")
    ∧ (∀ f : Float64, f.IsInf false = true →
      FieldMap.lookup key (Heap.read (a.AddFloat64 rt key f h) a.m) = some "\"-Inf\"")
    ∧ (∀ f : Float32, f.IsNaN = true →
      FieldMap.lookup key (Heap.read (a.AddFloat32 rt key f h) a.m) = some "\"NaN\"")
    ∧ (∀ f : Float32, f.IsInf true = true →
      FieldMap.lookup key (Heap.read (a.AddFloat32 rt key f h) a.m) = some "\"+Inf\"")
    ∧ (∀ f : Float32, f.IsInf false = true →
      FieldMap.lookup key (Heap.read (a.AddFloat32 rt key f h) a.m) = some "\"-Inf\"")
    ∧ "\"NaN\"".length = 5 ∧ "\"+Inf\"".length = 6 ∧ "\"-Inf\"".length = 6 := by
  refine ⟨?_, ?_, ?_, ?_, ?_, ?_, by decide, by decide, by decide⟩
  · intro f hf
    rw [AliYunEncoder.AddFloat64, formatFloat_NaN rt a f 64 hf, lookup_AddString _ _ _ _ hm]
  · intro f hf
    rw [AliYunEncoder.AddFloat64, formatFloat_posInf rt a f 64 hf, lookup_AddString _ _ _ _ hm]
  · intro f hf
    rw [AliYunEncoder.AddFloat64, formatFloat_negInf rt a f 64 hf, lookup_AddString _ _ _ _ hm]
  · intro f hf
    rw [AliYunEncoder.AddFloat32, formatFloat_NaN rt a _ 32 (Float32.toFloat64_IsNaN f hf),
      lookup_AddString _ _ _ _ hm]
  · intro f hf
    rw [AliYunEncoder.AddFloat32,
      formatFloat_posInf rt a _ 32 (Float32.toFloat64_IsInf f true hf).2,
      lookup_AddString _ _ _ _ hm]
  · intro f hf
    rw [AliYunEncoder.AddFloat32,
      formatFloat_negInf rt a _ 32 (Float32.toFloat64_IsInf f false hf).2,
      lookup_AddString _ _ _ _ hm]

/-- An instance of the amended C9 on the sample encoder. -/
theorem AddFloat_special_values_witness :
    FieldMap.lookup "k" (Heap.read ((sampleEncoder emptyConfig).AddFloat64 sampleRuntime "k"
        floatNaN sampleHeap) 0) = some "\"NaN\""
    ∧ FieldMap.lookup "k" (Heap.read ((sampleEncoder emptyConfig).AddFloat32 sampleRuntime "k"
        float32NegInf sampleHeap) 0) = some "\"-Inf\"" :=
  ⟨(AddFloat_special_values sampleRuntime (sampleEncoder emptyConfig) "k" sampleHeap
      (by decide)).1 floatNaN rfl,
   (AddFloat_special_values sampleRuntime (sampleEncoder emptyConfig) "k" sampleHeap
      (by decide)).2.2.2.2.2.1 float32NegInf rfl⟩

/-- C10 (complex formatting). `AddComplex128` stores under the key the float text of the real
part, then a plus sign exactly when the imaginary part is `>= 0`, then the float text of the
imaginary part, then `i`; when the imaginary part is `< 0` no plus sign is written. With a
float formatter that writes `3`, `2` and `-2` for those values, `(3, -2)` is stored as `3-2i`
and `(3, 2)` as `3+2i`. `AddComplex64` does what `AddComplex128` does on the widened value. -/
theorem AddComplex128_format (rt : Runtime) (a : AliYunEncoder) (key : String) (h : Heap)
    (hm : a.m < h.length) :
    (∀ v : Complex128,
      FieldMap.lookup key (Heap.read (a.AddComplex128 rt key v h) a.m)
        = some (rt.appendFloat v.re 64 ++ (if v.im.geZero then "+" else "")
            ++ rt.appendFloat v.im 64 ++ "i"))
    ∧ (∀ v : Complex128, v.im.ltZero = true →
      FieldMap.lookup key (Heap.read (a.AddComplex128 rt key v h) a.m)
        = some (rt.appendFloat v.re 64 ++ rt.appendFloat v.im 64 ++ "i"))
    ∧ (rt.appendFloat float3 64 = "3" → rt.appendFloat float2 64 = "2" →
        rt.appendFloat floatNeg2 64 = "-2" →
        FieldMap.lookup key (Heap.read (a.AddComplex128 rt key ⟨float3, floatNeg2⟩ h) a.m)
          = some "3-2i"
        ∧ FieldMap.lookup key (Heap.read (a.AddComplex128 rt key ⟨float3, float2⟩ h) a.m)
          = some "3+2i")
    ∧ (∀ c : Complex64, a.AddComplex64 rt key c h = a.AddComplex128 rt key c.toComplex128 h) := by
  have hgen : ∀ v : Complex128,
      FieldMap.lookup key (Heap.read (a.AddComplex128 rt key v h) a.m)
        = some (rt.appendFloat v.re 64 ++ (if v.im.geZero then "+" else "")
            ++ rt.appendFloat v.im 64 ++ "i") := by
    intro v
    simp only [AliYunEncoder.AddComplex128]
    rw [lookup_AddString _ _ _ _ hm]
    cases v.im.geZero <;> simp
  refine ⟨hgen, ?_, ?_, fun c => rfl⟩
  · intro v hv
    have hge : v.im.geZero = false := by
      simp only [Float64.ltZero, Bool.and_eq_true, Bool.not_eq_true'] at hv
      obtain ⟨⟨hn, hs⟩, hz⟩ := hv
      simp [Float64.geZero, hn, hs, hz]
    rw [hgen, hge]
    simp
  · intro h3 h2 hn2
    constructor
    · rw [hgen]
      have hge : floatNeg2.geZero = false := by decide
      simp only [hge, h3, hn2]
      decide
    · rw [hgen]
      have hge : float2.geZero = true := by decide
      simp only [hge, h3, h2]
      decide

/-- An instance of C10 with the sample runtime, whose formatter is right on integral floats. -/
theorem AddComplex128_format_witness :
    FieldMap.lookup "z" (Heap.read ((sampleEncoder emptyConfig).AddComplex128 sampleRuntime "z"
        ⟨float3, floatNeg2⟩ sampleHeap) 0) = some "3-2i"
    ∧ FieldMap.lookup "z" (Heap.read ((sampleEncoder emptyConfig).AddComplex128 sampleRuntime "z"
        ⟨float3, float2⟩ sampleHeap) 0) = some "3+2i" :=
  (AddComplex128_format sampleRuntime (sampleEncoder emptyConfig) "z" sampleHeap
    (by decide)).2.2.1 (by decide) (by decide) (by decide)

/-! ## Integers, durations and reflected values -/

theorem digitChar_facts (k : Nat) (hk : k < 10) :
    digitValue (Nat.digitChar k) = some k ∧ (Nat.digitChar k).isDigit = true
      ∧ Nat.digitChar k ≠ '-' ∧ (k ≠ 0 → Nat.digitChar k ≠ '0') ∧ Nat.digitChar 0 = '0' := by
  interval_cases k <;> decide

/-- The parsing step of `parseDigits`. -/
theorem parseStep_some (n : Nat) (k : Nat) (hk : k < 10) :
    (match some n, digitValue (Nat.digitChar k) with
      | some n, some d => some (n * 10 + d)
      | _, _ => none) = some (n * 10 + k) := by
  rw [(digitChar_facts k hk).1]

theorem foldl_toDigitsCore (fuel : Nat) :
    ∀ (n : Nat) (ds : List Char), n < fuel →
      (Nat.toDigitsCore 10 fuel n ds).foldl (fun acc c =>
        match acc, digitValue c with
        | some n, some d => some (n * 10 + d)
        | _, _ => none) (some 0)
      = ds.foldl (fun acc c =>
        match acc, digitValue c with
        | some n, some d => some (n * 10 + d)
        | _, _ => none) (some n) := by
  induction fuel with
  | zero => intro n ds hn; omega
  | succ fuel ih =>
    intro n ds hn
    have hd : n % 10 < 10 := Nat.mod_lt _ (by decide)
    by_cases h0 : n / 10 = 0
    · have hlt : n < 10 := by omega
      have hmod : n % 10 = n := Nat.mod_eq_of_lt hlt
      simp only [Nat.toDigitsCore, h0, if_true, List.foldl_cons, hmod]
      rw [(digitChar_facts n hlt).1]
      simp
    · simp only [Nat.toDigitsCore, h0, if_false]
      rw [ih (n / 10) _ (by omega)]
      simp only [List.foldl_cons]
      rw [(digitChar_facts _ hd).1]
      have : n / 10 * 10 + n % 10 = n := by omega
      simp only [this]

theorem toDigitsCore_shape (fuel : Nat) :
    ∀ (n : Nat) (ds : List Char), n < fuel →
      ∃ pre : List Char, Nat.toDigitsCore 10 fuel n ds = pre ++ ds ∧ pre ≠ []
        ∧ pre.all Char.isDigit = true ∧ (n ≠ 0 → pre.head? ≠ some '0')
        ∧ (n < 10 → pre = [Nat.digitChar n]) := by
  induction fuel with
  | zero => intro n ds hn; omega
  | succ fuel ih =>
    intro n ds hn
    have hd : n % 10 < 10 := Nat.mod_lt _ (by decide)
    by_cases h0 : n / 10 = 0
    · have hlt : n < 10 := by omega
      have hmod : n % 10 = n := Nat.mod_eq_of_lt hlt
      refine ⟨[Nat.digitChar n], ?_, by simp, ?_, ?_, fun _ => rfl⟩
      · simp [Nat.toDigitsCore, h0, hmod]
      · simp [(digitChar_facts n hlt).2.1]
      · intro hn0
        simpa using (digitChar_facts n hlt).2.2.2.1 hn0
    · obtain ⟨pre, hpre, hne, hall, hhead, -⟩ := ih (n / 10) (Nat.digitChar (n % 10) :: ds) (by omega)
      refine ⟨pre ++ [Nat.digitChar (n % 10)], ?_, by simp, ?_, ?_, ?_⟩
      · simp [Nat.toDigitsCore, h0, hpre]
      · simp [List.all_append, hall, (digitChar_facts _ hd).2.1]
      · intro _
        cases pre with
        | nil => exact absurd rfl hne
        | cons c t => simpa using hhead h0
      · intro hlt
        omega

theorem parseDigits_repr (n : Nat) : parseDigits (Nat.repr n).data = some n := by
  obtain ⟨pre, hpre, hne, -⟩ := toDigitsCore_shape (n + 1) n [] (Nat.lt_succ_self n)
  have hdata : (Nat.repr n).data = Nat.toDigitsCore 10 (n + 1) n [] := rfl
  have hnil : (Nat.repr n).data ≠ [] := by
    rw [hdata, hpre]
    simpa using hne
  have hfold := foldl_toDigitsCore (n + 1) n [] (Nat.lt_succ_self n)
  rw [← hdata] at hfold
  unfold parseDigits
  split
  · rename_i heq
    exact absurd heq hnil
  · exact hfold

theorem canonicalDigits_repr (n : Nat) :
    canonicalDigits (Nat.repr n).data = true ∧ (Nat.repr n).data.head? ≠ some '-'
      ∧ (n ≠ 0 → (Nat.repr n).data ≠ ['0']) := by
  obtain ⟨pre, hpre, hne, hall, hhead, hsmall⟩ :=
    toDigitsCore_shape (n + 1) n [] (Nat.lt_succ_self n)
  have hdata : (Nat.repr n).data = pre := by
    have : (Nat.repr n).data = Nat.toDigitsCore 10 (n + 1) n [] := rfl
    rw [this, hpre, List.append_nil]
  rw [hdata]
  cases pre with
  | nil => exact absurd rfl hne
  | cons c t =>
    have hc : c.isDigit = true := by
      simp only [List.all_cons, Bool.and_eq_true] at hall
      exact hall.1
    refine ⟨?_, ?_, ?_⟩
    · by_cases hn0 : n = 0
      · have := hsmall (by omega)
        simp only [List.cons.injEq] at this
        simp [canonicalDigits, this.2, hc]
      · have hh := hhead hn0
        simp only [List.head?_cons, ne_eq, Option.some.injEq] at hh
        simp [canonicalDigits, hall, hh]
    · simp only [List.head?_cons, ne_eq, Option.some.injEq]
      intro hminus
      rw [hminus] at hc
      exact absurd hc (by decide)
    · intro hn0 heq
      have hh := hhead hn0
      simp only [List.head?_cons, ne_eq, Option.some.injEq] at hh
      simp only [List.cons.injEq] at heq
      exact hh heq.1


theorem formatUint_facts (u : Nat) :
    parseDecimal (formatUint u) = some (u : Int) ∧ canonicalDecimal (formatUint u) = true
      ∧ (formatUint u).data.head? ≠ some '-' := by
  obtain ⟨hcanon, hhead, -⟩ := canonicalDigits_repr u
  have hparse := parseDigits_repr u
  unfold formatUint
  refine ⟨?_, ?_, hhead⟩
  · unfold parseDecimal
    split
    · rename_i rest heq
      rw [heq] at hhead
      exact absurd rfl hhead
    · rw [hparse]
      rfl
  · unfold canonicalDecimal
    split
    · rename_i rest heq
      rw [heq] at hhead
      exact absurd rfl hhead
    · exact hcanon

theorem formatInt_facts (v : Int) :
    parseDecimal (formatInt v) = some v ∧ canonicalDecimal (formatInt v) = true
      ∧ ((formatInt v).data.head? = some '-' ↔ v < 0) := by
  cases v with
  | ofNat n =>
    obtain ⟨hp, hc, hh⟩ := formatUint_facts n
    refine ⟨hp, hc, ?_⟩
    constructor
    · intro hm
      exact absurd hm hh
    · intro hneg
      exact absurd hneg (by simp)
  | negSucc n =>
    have hdata : (formatInt (Int.negSucc n)).data = '-' :: (Nat.repr (n + 1)).data := rfl
    obtain ⟨hcanon, -, hnz⟩ := canonicalDigits_repr (n + 1)
    refine ⟨?_, ?_, ?_⟩
    · unfold parseDecimal
      rw [hdata]
      simp only [parseDigits_repr, Option.map_some']
      rfl
    · unfold canonicalDecimal
      rw [hdata]
      simp only [hcanon, Bool.true_and, bne_iff_ne, ne_eq]
      exact hnz (by omega)
    · rw [hdata]
      simp [Int.negSucc_lt_zero]


/-- C11 (integer formatting). Each of `AddInt8`, `AddInt16`, `AddInt32` and `AddInt64` stores
under the key the decimal text `formatInt v` of its value, and each of `AddUint8`, `AddUint16`,
`AddUint32`, `AddUint64`, `AddUint` and `AddUintptr` the decimal text `formatUint u`. That text is
canonical: decimal digits only, no leading zero except for the single digit `0`, a leading
minus sign exactly when the value is negative; and reading it back as a decimal integer gives
the value. -/
theorem AddInt_stores_canonical_decimal (a : AliYunEncoder) (key : String) (h : Heap)
    (hm : a.m < h.length) :
    (∀ v : Int,
      FieldMap.lookup key (Heap.read (a.AddInt64 key v h) a.m) = some (formatInt v)
      ∧ FieldMap.lookup key (Heap.read (a.AddInt32 key v h) a.m) = some (formatInt v)
      ∧ FieldMap.lookup key (Heap.read (a.AddInt16 key v h) a.m) = some (formatInt v)
      ∧ FieldMap.lookup key (Heap.read (a.AddInt8 key v h) a.m) = some (formatInt v)
      ∧ canonicalDecimal (formatInt v) = true
      ∧ ((formatInt v).data.head? = some '-' ↔ v < 0)
      ∧ parseDecimal (formatInt v) = some v)
    ∧ (∀ u : Nat,
      FieldMap.lookup key (Heap.read (a.AddUint64 key u h) a.m) = some (formatUint u)
      ∧ FieldMap.lookup key (Heap.read (a.AddUint32 key u h) a.m) = some (formatUint u)
      ∧ FieldMap.lookup key (Heap.read (a.AddUint16 key u h) a.m) = some (formatUint u)
      ∧ FieldMap.lookup key (Heap.read (a.AddUint8 key u h) a.m) = some (formatUint u)
      ∧ FieldMap.lookup key (Heap.read (a.AddUint key u h) a.m) = some (formatUint u)
      ∧ FieldMap.lookup key (Heap.read (a.AddUintptr key u h) a.m) = some (formatUint u)
      ∧ canonicalDecimal (formatUint u) = true
      ∧ (formatUint u).data.head? ≠ some '-'
      ∧ parseDecimal (formatUint u) = some (u : Int)) := by
  constructor
  · intro v
    obtain ⟨hp, hc, hs⟩ := formatInt_facts v
    have h64 : FieldMap.lookup key (Heap.read (a.AddInt64 key v h) a.m) = some (formatInt v) := by
      rw [AliYunEncoder.AddInt64, lookup_AddString _ _ _ _ hm]
    exact ⟨h64, h64, h64, h64, hc, hs, hp⟩
  · intro u
    obtain ⟨hp, hc, hs⟩ := formatUint_facts u
    have h64 : FieldMap.lookup key (Heap.read (a.AddUint64 key u h) a.m)
        = some (formatUint u) := by
      rw [AliYunEncoder.AddUint64, lookup_AddString _ _ _ _ hm]
    exact ⟨h64, h64, h64, h64, h64, h64, hc, hs, hp⟩

/-- An instance of C11: `-128` as an int8 and `255` as a uint8 on the sample encoder. -/
theorem AddInt_stores_canonical_decimal_witness :
    FieldMap.lookup "n" (Heap.read ((sampleEncoder emptyConfig).AddInt8 "n" (-128) sampleHeap) 0)
        = some (formatInt (-128))
    ∧ parseDecimal (formatInt (-128)) = some (-128)
    ∧ FieldMap.lookup "n" (Heap.read ((sampleEncoder emptyConfig).AddUint8 "n" 255 sampleHeap) 0)
        = some (formatUint 255)
    ∧ canonicalDecimal (formatUint 255) = true :=
  ⟨((AddInt_stores_canonical_decimal (sampleEncoder emptyConfig) "n" sampleHeap
      (by decide)).1 (-128)).2.2.2.1,
   ((AddInt_stores_canonical_decimal (sampleEncoder emptyConfig) "n" sampleHeap
      (by decide)).1 (-128)).2.2.2.2.2.2,
   ((AddInt_stores_canonical_decimal (sampleEncoder emptyConfig) "n" sampleHeap
      (by decide)).2 255).2.2.2.1,
   ((AddInt_stores_canonical_decimal (sampleEncoder emptyConfig) "n" sampleHeap
      (by decide)).2 255).2.2.2.2.2.2.1⟩

/-- C13 (the platform-native int is rejected). For every key and every value, `AddInt` panics
with the message `implement me`: it does not return, and the heap at the panic is the heap it
was called with, so no entry of any map has been added or changed. -/
theorem AddInt_panics (a : AliYunEncoder) (key : String) (value : Int) (h : Heap) :
    a.AddInt key value h = .panicked "implement me" h
    ∧ (∀ h1 : Heap, a.AddInt key value h ≠ .returned h1) := by
  refine ⟨rfl, ?_⟩
  intro h1 hr
  simp [AliYunEncoder.AddInt] at hr

/-- An instance of C13 on the sample encoder. -/
theorem AddInt_panics_witness :
    (sampleEncoder emptyConfig).AddInt "n" 7 sampleHeap = .panicked "implement me" sampleHeap :=
  (AddInt_panics (sampleEncoder emptyConfig) "n" 7 sampleHeap).1

/-- C16 (a duration is encoded as its tick count). For every key, duration `d` (its int64 count
of nanoseconds) and encoder, whatever its configuration and duration formatter, `AddDuration`
leaves the heap that `AddInt64` leaves for the same number. The stored value is the decimal
text of the number: canonical digits, a minus sign exactly when the number is negative, and
reading it back as a decimal integer gives the number. With any duration formatter configured
the stored value is still that text: the formatter is not consulted. -/
theorem AddDuration_is_AddInt64 (a : AliYunEncoder) (key : String) (d : Int) (h : Heap)
    (hm : a.m < h.length) :
    a.AddDuration key d h = a.AddInt64 key d h
    ∧ FieldMap.lookup key (Heap.read (a.AddDuration key d h) a.m) = some (formatInt d)
    ∧ (∃ s : String, FieldMap.lookup key (Heap.read (a.AddDuration key d h) a.m) = some s
        ∧ parseDecimal s = some d ∧ canonicalDecimal s = true
        ∧ (s.data.head? = some '-' ↔ d < 0))
    ∧ (∀ g : Option (Int → String),
        AliYunEncoder.AddDuration { a with cfg := { a.cfg with EncodeDuration := g } } key d h
          = a.AddDuration key d h
        ∧ ∃ s : String, FieldMap.lookup key (Heap.read
            (AliYunEncoder.AddDuration { a with cfg := { a.cfg with EncodeDuration := g } }
              key d h) a.m) = some s
          ∧ parseDecimal s = some d) := by
  obtain ⟨hp, hc, hs⟩ := formatInt_facts d
  have hl : FieldMap.lookup key (Heap.read (a.AddDuration key d h) a.m) = some (formatInt d) := by
    rw [AliYunEncoder.AddDuration, AliYunEncoder.AddInt64, lookup_AddString _ _ _ _ hm]
  exact ⟨rfl, hl, ⟨_, hl, hp, hc, hs⟩, fun g => ⟨rfl, _, hl, hp⟩⟩

/-- An instance of C16: durations of 1500 ns and -1500 ns on an encoder whose duration
formatter writes `1.5us`: the stored values are `1500` and `-1500`, not the formatter's text. -/
theorem AddDuration_is_AddInt64_witness :
    AliYunEncoder.AddDuration
        (sampleEncoder { emptyConfig with EncodeDuration := some (fun _ => "1.5us") })
        "took" 1500 sampleHeap
      = AliYunEncoder.AddInt64
        (sampleEncoder { emptyConfig with EncodeDuration := some (fun _ => "1.5us") })
        "took" 1500 sampleHeap
    ∧ FieldMap.lookup "took" (Heap.read (AliYunEncoder.AddDuration
        (sampleEncoder { emptyConfig with EncodeDuration := some (fun _ => "1.5us") })
        "took" 1500 sampleHeap) 0) = some "1500"
    ∧ FieldMap.lookup "took" (Heap.read (AliYunEncoder.AddDuration
        (sampleEncoder { emptyConfig with EncodeDuration := some (fun _ => "1.5us") })
        "took" (-1500) sampleHeap) 0) = some "-1500"
    ∧ parseDecimal "1500" = some 1500 ∧ parseDecimal "-1500" = some (-1500) :=
  ⟨(AddDuration_is_AddInt64
      (sampleEncoder { emptyConfig with EncodeDuration := some (fun _ => "1.5us") })
      "took" 1500 sampleHeap (by decide)).1,
   (AddDuration_is_AddInt64
      (sampleEncoder { emptyConfig with EncodeDuration := some (fun _ => "1.5us") })
      "took" 1500 sampleHeap (by decide)).2.1,
   (AddDuration_is_AddInt64
      (sampleEncoder { emptyConfig with EncodeDuration := some (fun _ => "1.5us") })
      "took" (-1500) sampleHeap (by decide)).2.1,
   by decide, by decide⟩

/-- C17 (absent reflected value). For every key, `AddReflected` of nil returns no error, stores
the four characters `null` under the key and leaves the value of every other key, and every
other map, as it was. -/
theorem AddReflected_nil (a : AliYunEncoder) (key : String) (h : Heap) (hm : a.m < h.length) :
    (a.AddReflected key .null h).1 = none
    ∧ FieldMap.lookup key (Heap.read (a.AddReflected key .null h).2 a.m) = some "null"
    ∧ "null".length = 4
    ∧ (∀ k : String, k ≠ key →
        FieldMap.lookup k (Heap.read (a.AddReflected key .null h).2 a.m)
          = FieldMap.lookup k (Heap.read h a.m))
    ∧ (∀ q : MapPtr, q ≠ a.m → Heap.read (a.AddReflected key .null h).2 q = Heap.read h q) := by
  have hr : a.AddReflected key .null h = (none, a.AddString key "null" h) := rfl
  rw [hr]
  refine ⟨rfl, lookup_AddString _ _ _ _ hm, by decide, ?_, ?_⟩
  · intro k hk
    rw [AddString_eq_modify, Heap.read_modify_self _ _ _ hm,
      FieldMap.lookup_insert_ne _ _ _ _ (Ne.symm hk)]
  · intro q hq
    rw [AddString_eq_modify, Heap.read_modify_ne _ _ _ _ (Ne.symm hq)]

/-- An instance of C17 on the sample encoder, whose map holds `svc = api`. -/
theorem AddReflected_nil_witness :
    FieldMap.lookup "r" (Heap.read ((sampleEncoder emptyConfig).AddReflected "r" .null
        sampleHeap).2 0) = some "null"
    ∧ FieldMap.lookup "svc" (Heap.read ((sampleEncoder emptyConfig).AddReflected "r" .null
        sampleHeap).2 0) = FieldMap.lookup "svc" (Heap.read sampleHeap 0) :=
  ⟨(AddReflected_nil (sampleEncoder emptyConfig) "r" sampleHeap (by decide)).2.1,
   (AddReflected_nil (sampleEncoder emptyConfig) "r" sampleHeap (by decide)).2.2.2.1 "svc"
      (by decide)⟩

/-! ## Base64 -/

set_option maxRecDepth 100000 in
theorem base64Index_char_fin : ∀ k : Fin 64,
    base64Index (base64Char k.val) = some k.val ∧ base64Char k.val ≠ '='
      ∧ base64Char k.val ∈ base64Alphabet := by
  decide

theorem base64Index_char (n : Nat) :
    base64Index (base64Char n) = some (n % 64) ∧ base64Char n ≠ '='
      ∧ base64Char n ∈ base64Alphabet := by
  have h := base64Index_char_fin ⟨n % 64, Nat.mod_lt _ (by decide)⟩
  have hc : base64Char n = base64Char (n % 64) := by
    simp [base64Char]
  rw [hc]
  exact h


theorem base64Encode_length (b : List Nat) :
    (base64Encode b).length = 4 * ((b.length + 2) / 3) := by
  induction b using base64Encode.induct with
  | case1 a b c rest ih =>
    simp only [base64Encode, List.length_cons, ih]
    omega
  | case2 a b => simp [base64Encode]
  | case3 a => simp [base64Encode]
  | case4 => simp [base64Encode]

theorem base64Encode_alphabet (b : List Nat) :
    ∀ c ∈ base64Encode b, c ∈ base64Alphabet ∨ c = '=' := by
  induction b using base64Encode.induct with
  | case1 a b c rest ih =>
    intro x hx
    simp only [base64Encode, List.mem_cons] at hx
    rcases hx with hx | hx | hx | hx | hx
    · exact Or.inl (hx ▸ (base64Index_char _).2.2)
    · exact Or.inl (hx ▸ (base64Index_char _).2.2)
    · exact Or.inl (hx ▸ (base64Index_char _).2.2)
    · exact Or.inl (hx ▸ (base64Index_char _).2.2)
    · exact ih x hx
  | case2 a b =>
    intro x hx
    simp only [base64Encode, List.mem_cons, List.mem_singleton, List.not_mem_nil, or_false] at hx
    rcases hx with hx | hx | hx | hx
    · exact Or.inl (hx ▸ (base64Index_char _).2.2)
    · exact Or.inl (hx ▸ (base64Index_char _).2.2)
    · exact Or.inl (hx ▸ (base64Index_char _).2.2)
    · exact Or.inr hx
  | case3 a =>
    intro x hx
    simp only [base64Encode, List.mem_cons, List.mem_singleton, List.not_mem_nil, or_false] at hx
    rcases hx with hx | hx | hx | hx
    · exact Or.inl (hx ▸ (base64Index_char _).2.2)
    · exact Or.inl (hx ▸ (base64Index_char _).2.2)
    · exact Or.inr hx
    · exact Or.inr hx
  | case4 => intro x hx; simp [base64Encode] at hx

theorem base64Decode_encode (b : List Nat) :
    base64Decode (base64Encode b) = some (b.map (fun x => x % 256)) := by
  have hne : ∀ m, base64Char m ≠ '=' := fun m => (base64Index_char m).2.1
  have hidx : ∀ m, base64Index (base64Char m) = some (m % 64) := fun m => (base64Index_char m).1
  induction b using base64Encode.induct with
  | case1 a b c rest ih =>
    simp only [base64Encode, base64Decode, hidx, hne, false_and, if_false, ih, List.map_cons]
    have ha : a % 256 < 256 := Nat.mod_lt _ (by decide)
    have hb : b % 256 < 256 := Nat.mod_lt _ (by decide)
    have hc : c % 256 < 256 := Nat.mod_lt _ (by decide)
    generalize a % 256 = a1 at *
    generalize b % 256 = b1 at *
    generalize c % 256 = c1 at *
    simp only [Option.some.injEq, List.cons.injEq, and_true]
    refine ⟨?_, ?_, ?_⟩ <;> omega
  | case2 a b =>
    simp only [base64Encode, base64Decode, hidx, hne, false_and, if_false,
      true_and, and_self, if_true, List.map_cons, List.map_nil]
    have ha : a % 256 < 256 := Nat.mod_lt _ (by decide)
    have hb : b % 256 < 256 := Nat.mod_lt _ (by decide)
    generalize a % 256 = a1 at *
    generalize b % 256 = b1 at *
    simp only [Option.some.injEq, List.cons.injEq, and_true]
    refine ⟨?_, ?_⟩ <;> omega
  | case3 a =>
    simp only [base64Encode, base64Decode, hidx, true_and, and_self, if_true,
      List.map_cons, List.map_nil]
    have ha : a % 256 < 256 := Nat.mod_lt _ (by decide)
    generalize a % 256 = a1 at *
    simp only [Option.some.injEq, List.cons.injEq, and_true]
    omega
  | case4 => rfl


theorem map_mod_256 (b : List Nat) (hb : ∀ x ∈ b, x < 256) : b.map (fun x => x % 256) = b := by
  induction b with
  | nil => rfl
  | cons x t ih =>
    have hx : x % 256 = x := Nat.mod_eq_of_lt (hb x (List.mem_cons_self _ _))
    simp only [List.map_cons, hx, ih (fun y hy => hb y (List.mem_cons_of_mem _ hy))]

/-- C12 (binary encoding). For every key and every byte sequence `b` of length `n`,
`AddBinary` stores under the key the padded standard base64 text of `b`: it has
`4 * ceil(n / 3)` characters, each from the standard alphabet or the padding `=`, and decoding
it gives back `b`; for the bytes `0x00, 0xFF` the stored text is `AP8=`. -/
theorem AddBinary_stores_base64 (a : AliYunEncoder) (key : String) (b : List Nat) (h : Heap)
    (hm : a.m < h.length) (hb : ∀ x ∈ b, x < 256) :
    FieldMap.lookup key (Heap.read (a.AddBinary key b h) a.m) = some (EncodeToString b)
    ∧ (EncodeToString b).length = 4 * ((b.length + 2) / 3)
    ∧ (∀ c ∈ (EncodeToString b).data, c ∈ base64Alphabet ∨ c = '=')
    ∧ base64Decode (EncodeToString b).data = some b
    ∧ FieldMap.lookup key (Heap.read (a.AddBinary key [0, 255] h) a.m) = some "AP8=" := by
  refine ⟨?_, ?_, ?_, ?_, ?_⟩
  · rw [AliYunEncoder.AddBinary, lookup_AddString _ _ _ _ hm]
  · exact base64Encode_length b
  · exact base64Encode_alphabet b
  · show base64Decode (base64Encode b) = some b
    rw [base64Decode_encode, map_mod_256 b hb]
  · rw [AliYunEncoder.AddBinary, lookup_AddString _ _ _ _ hm]
    decide

/-- An instance of C12: the two bytes `0x00, 0xFF` on the sample encoder. -/
theorem AddBinary_stores_base64_witness :
    FieldMap.lookup "bin" (Heap.read ((sampleEncoder emptyConfig).AddBinary "bin" [0, 255]
        sampleHeap) 0) = some (EncodeToString [0, 255])
    ∧ (EncodeToString [0, 255]).length = 4 * ((([0, 255] : List Nat).length + 2) / 3)
    ∧ base64Decode (EncodeToString [0, 255]).data = some [0, 255] :=
  ⟨(AddBinary_stores_base64 (sampleEncoder emptyConfig) "bin" [0, 255] sampleHeap (by decide)
      (by decide)).1,
   (AddBinary_stores_base64 (sampleEncoder emptyConfig) "bin" [0, 255] sampleHeap (by decide)
      (by decide)).2.1,
   (AddBinary_stores_base64 (sampleEncoder emptyConfig) "bin" [0, 255] sampleHeap (by decide)
      (by decide)).2.2.2.1⟩

/-! ## Maps without duplicate keys and repeated merges -/

theorem FieldMap.lookup_eq_none_of_not_mem (k : String) (m : FieldMap)
    (hk : k ∉ FieldMap.keys m) : FieldMap.lookup k m = none := by
  induction m with
  | nil => rfl
  | cons kv t ih =>
    obtain ⟨k1, v⟩ := kv
    simp only [FieldMap.keys, List.map_cons, List.mem_cons, not_or] at hk
    have hne : k1 ≠ k := fun e => hk.1 e.symm
    simp only [FieldMap.lookup, hne, if_false]
    exact ih hk.2

theorem FieldMap.mem_of_lookup (k v : String) (m : FieldMap)
    (hl : FieldMap.lookup k m = some v) : (k, v) ∈ m := by
  induction m with
  | nil => simp [FieldMap.lookup] at hl
  | cons kv t ih =>
    obtain ⟨k1, v1⟩ := kv
    by_cases hk : k1 = k
    · simp only [FieldMap.lookup, hk, if_true, Option.some.injEq] at hl
      rw [hk, hl]
      exact List.mem_cons_self _ _
    · simp only [FieldMap.lookup, hk, if_false] at hl
      exact List.mem_cons_of_mem _ (ih hl)

theorem FieldMap.lookup_of_mem (k v : String) (m : FieldMap) (hn : (FieldMap.keys m).Nodup)
    (hmem : (k, v) ∈ m) : FieldMap.lookup k m = some v := by
  induction m with
  | nil => simp at hmem
  | cons kv t ih =>
    obtain ⟨k1, v1⟩ := kv
    simp only [FieldMap.keys, List.map_cons, List.nodup_cons] at hn
    rcases List.mem_cons.mp hmem with heq | ht
    · simp only [Prod.mk.injEq] at heq
      simp [FieldMap.lookup, heq.1, heq.2]
    · have hk : k1 ≠ k := by
        intro e
        apply hn.1
        rw [e]
        exact List.mem_map_of_mem Prod.fst ht
      simp only [FieldMap.lookup, hk, if_false]
      exact ih hn.2 ht

theorem FieldMap.mem_keys_erase (k q : String) (m : FieldMap) :
    q ∈ FieldMap.keys (FieldMap.erase k m) ↔ q ∈ FieldMap.keys m ∧ q ≠ k := by
  induction m with
  | nil => simp [FieldMap.erase, FieldMap.keys]
  | cons kv t ih =>
    obtain ⟨k1, v⟩ := kv
    simp only [FieldMap.keys] at ih
    by_cases hk : k1 = k
    · subst hk
      simp only [FieldMap.erase, if_true, FieldMap.keys, List.map_cons, List.mem_cons, ih]
      constructor
      · intro hq
        exact ⟨Or.inr hq.1, hq.2⟩
      · intro hq
        rcases hq.1 with h1 | h1
        · exact absurd h1 hq.2
        · exact ⟨h1, hq.2⟩
    · simp only [FieldMap.erase, hk, if_false, FieldMap.keys, List.map_cons, List.mem_cons, ih]
      constructor
      · intro hq
        rcases hq with h1 | h1
        · exact ⟨Or.inl h1, fun e => hk (h1 ▸ e)⟩
        · exact ⟨Or.inr h1.1, h1.2⟩
      · intro hq
        rcases hq.1 with h1 | h1
        · exact Or.inl h1
        · exact Or.inr ⟨h1, hq.2⟩

theorem FieldMap.nodup_erase (k : String) (m : FieldMap) (hn : (FieldMap.keys m).Nodup) :
    (FieldMap.keys (FieldMap.erase k m)).Nodup := by
  induction m with
  | nil => simp [FieldMap.erase, FieldMap.keys]
  | cons kv t ih =>
    obtain ⟨k1, v⟩ := kv
    simp only [FieldMap.keys, List.map_cons, List.nodup_cons] at hn
    by_cases hk : k1 = k
    · simp only [FieldMap.erase, hk, if_true]
      exact ih hn.2
    · simp only [FieldMap.erase, hk, if_false]
      show (k1 :: FieldMap.keys (FieldMap.erase k t)).Nodup
      rw [List.nodup_cons]
      refine ⟨?_, ih hn.2⟩
      intro hmem
      exact hn.1 ((FieldMap.mem_keys_erase k k1 t).mp hmem).1

theorem FieldMap.nodup_insert (k v : String) (m : FieldMap) (hn : (FieldMap.keys m).Nodup) :
    (FieldMap.keys (FieldMap.insert k v m)).Nodup := by
  show (k :: FieldMap.keys (FieldMap.erase k m)).Nodup
  rw [List.nodup_cons]
  refine ⟨?_, FieldMap.nodup_erase k m hn⟩
  intro hmem
  exact ((FieldMap.mem_keys_erase k k m).mp hmem).2 rfl

theorem FieldMap.nodup_foldl_insert (l acc : FieldMap) (hn : (FieldMap.keys acc).Nodup) :
    (FieldMap.keys (l.foldl (fun m kv => FieldMap.insert kv.1 kv.2 m) acc)).Nodup := by
  induction l generalizing acc with
  | nil => exact hn
  | cons kv t ih => exact ih _ (FieldMap.nodup_insert _ _ _ hn)

theorem FieldMap.lookup_foldl_insert (k : String) (l acc : FieldMap)
    (hn : (FieldMap.keys l).Nodup) :
    FieldMap.lookup k (l.foldl (fun m kv => FieldMap.insert kv.1 kv.2 m) acc)
      = match FieldMap.lookup k l with
        | some v => some v
        | none => FieldMap.lookup k acc := by
  induction l generalizing acc with
  | nil => rfl
  | cons kv t ih =>
    obtain ⟨k1, v⟩ := kv
    simp only [FieldMap.keys, List.map_cons, List.nodup_cons] at hn
    simp only [List.foldl_cons]
    rw [ih _ hn.2]
    by_cases hk : k1 = k
    · subst hk
      have ht : FieldMap.lookup k1 t = none := FieldMap.lookup_eq_none_of_not_mem k1 t hn.1
      simp [FieldMap.lookup, ht, FieldMap.lookup_insert_self]
    · rw [FieldMap.lookup_insert_ne _ _ _ _ hk]
      have hl : FieldMap.lookup k ((k1, v) :: t) = FieldMap.lookup k t := by
        simp [FieldMap.lookup, hk]
      rw [hl]

theorem AliYunEncoder.lookup_cloneMap (a : AliYunEncoder) (h : Heap) (k : String)
    (hn : (FieldMap.keys (Heap.read h a.m)).Nodup) :
    FieldMap.lookup k (a.cloneMap h) = FieldMap.lookup k (Heap.read h a.m) := by
  rw [AliYunEncoder.cloneMap, FieldMap.lookup_foldl_insert k _ [] hn]
  cases FieldMap.lookup k (Heap.read h a.m) <;> rfl

theorem AliYunEncoder.nodup_cloneMap (a : AliYunEncoder) (h : Heap) :
    (FieldMap.keys (a.cloneMap h)).Nodup :=
  FieldMap.nodup_foldl_insert _ [] List.nodup_nil

theorem nodup_applyBinding (o : Option (String × String)) (m : FieldMap)
    (hn : (FieldMap.keys m).Nodup) : (FieldMap.keys (applyBinding o m)).Nodup := by
  cases o with
  | none => exact hn
  | some kv => exact FieldMap.nodup_insert _ _ _ hn

theorem nodup_mergeFields (rt : Runtime) (cfg : EncoderConfig) (fields : List Field)
    (m : FieldMap) (hn : (FieldMap.keys m).Nodup) :
    (FieldMap.keys (mergeFields rt cfg fields m)).Nodup := by
  induction fields generalizing m with
  | nil => exact hn
  | cons f fs ih => exact ih _ (nodup_applyBinding _ _ hn)

theorem nodup_metaMap (rt : Runtime) (cfg : EncoderConfig) (ent : Entry) (m : FieldMap)
    (hn : (FieldMap.keys m).Nodup) : (FieldMap.keys (metaMap rt cfg ent m)).Nodup := by
  unfold metaMap
  lift_lets
  intro m1 m2 m3 m4 m5
  have e1 : (FieldMap.keys m1).Nodup := by
    show (FieldMap.keys (if cfg.LevelKey ≠ "" then _ else m)).Nodup
    split
    · exact FieldMap.nodup_insert _ _ _ hn
    · exact hn
  have e2 : (FieldMap.keys m2).Nodup := by
    show (FieldMap.keys (if cfg.TimeKey ≠ "" then _ else m1)).Nodup
    split
    · exact FieldMap.nodup_insert _ _ _ e1
    · exact e1
  have e3 : (FieldMap.keys m3).Nodup := by
    show (FieldMap.keys (if ent.LoggerName ≠ "" ∧ cfg.NameKey ≠ "" then _ else m2)).Nodup
    split
    · exact FieldMap.nodup_insert _ _ _ e2
    · exact e2
  have e4 : (FieldMap.keys m4).Nodup := by
    show (FieldMap.keys (if cfg.CallerKey ≠ "" then
      (match cfg.EncodeCaller with
        | some encodeCaller => FieldMap.insert cfg.CallerKey (encodeCaller ent.Caller) m3
        | none => m3) else m3)).Nodup
    split
    · cases cfg.EncodeCaller with
      | none => exact e3
      | some g => exact FieldMap.nodup_insert _ _ _ e3
    · exact e3
  have e5 : (FieldMap.keys m5).Nodup := by
    show (FieldMap.keys (if ent.Caller.Defined = true then
      (if cfg.FunctionKey ≠ "" then _ else m4) else m3)).Nodup
    split
    · split
      · exact FieldMap.nodup_insert _ _ _ e4
      · exact e4
    · exact e3
  show (FieldMap.keys (if cfg.MessageKey ≠ "" then _ else m5)).Nodup
  split
  · exact FieldMap.nodup_insert _ _ _ e5
  · exact e5

theorem nodup_finalMap (rt : Runtime) (cfg : EncoderConfig) (ent : Entry) (fields : List Field)
    (m : FieldMap) (hn : (FieldMap.keys m).Nodup) :
    (FieldMap.keys (finalMap rt cfg ent fields m)).Nodup := by
  have hb := nodup_mergeFields rt cfg fields _
    (nodup_metaMap rt cfg ent _ (nodup_mergeFields rt cfg fields m hn))
  show (FieldMap.keys (if ent.Stack ≠ "" ∧ cfg.StacktraceKey ≠ "" then _ else _)).Nodup
  split
  · exact FieldMap.nodup_insert _ _ _ hb
  · exact hb

theorem AliYunEncoder.nodup_EncodeEntryMap (rt : Runtime) (a : AliYunEncoder) (ent : Entry)
    (fields : List Field) (h : Heap) :
    (FieldMap.keys (a.EncodeEntryMap rt ent fields h)).Nodup := by
  rw [AliYunEncoder.EncodeEntryMap_eq]
  exact nodup_finalMap rt a.cfg ent fields _ (a.nodup_cloneMap h)

theorem lookup_mergeFields_of_mem (rt : Runtime) (cfg : EncoderConfig) (fields : List Field)
    (k : String) (m1 m2 : FieldMap) (hk : k ∈ fieldKeys rt cfg fields) :
    FieldMap.lookup k (mergeFields rt cfg fields m1)
      = FieldMap.lookup k (mergeFields rt cfg fields m2) := by
  induction fields generalizing m1 m2 with
  | nil => simp [fieldKeys] at hk
  | cons f fs ih =>
    have hstep : ∀ m, mergeFields rt cfg (f :: fs) m
        = mergeFields rt cfg fs (applyBinding (f.binding rt cfg) m) := fun _ => rfl
    rw [hstep, hstep]
    by_cases hfs : k ∈ fieldKeys rt cfg fs
    · exact ih _ _ hfs
    · rw [lookup_mergeFields_ne _ _ _ _ _ hfs, lookup_mergeFields_ne _ _ _ _ _ hfs]
      cases hb : f.binding rt cfg with
      | none =>
        exfalso
        apply hfs
        simpa [fieldKeys, hb] using hk
      | some kv =>
        have hkk : kv.1 = k := by
          simp only [fieldKeys, List.filterMap_cons, hb, Option.map_some', List.mem_cons] at hk
          rcases hk with h1 | h1
          · exact h1.symm
          · exact absurd (by simpa [fieldKeys] using h1) hfs
        simp only [applyBinding, hkk, FieldMap.lookup_insert_self]

theorem lookup_mergeFields_twice (rt : Runtime) (cfg : EncoderConfig) (fields : List Field)
    (k : String) (m x : FieldMap)
    (hx : k ∉ fieldKeys rt cfg fields → FieldMap.lookup k x
      = FieldMap.lookup k (mergeFields rt cfg fields m)) :
    FieldMap.lookup k (mergeFields rt cfg fields x)
      = FieldMap.lookup k (mergeFields rt cfg fields m) := by
  by_cases hk : k ∈ fieldKeys rt cfg fields
  · exact lookup_mergeFields_of_mem rt cfg fields k x m hk
  · rw [lookup_mergeFields_ne _ _ _ _ _ hk, hx hk]

/-! ## Finalization: empty key names, the second merge, caller and stack trace -/

theorem metaMap_empty_keys (rt : Runtime) (cfg : EncoderConfig) (ent : Entry) (m : FieldMap)
    (hkeys : ∀ k ∈ cfg.keyNames, k = "") : metaMap rt cfg ent m = m := by
  have h1 : cfg.MessageKey = "" := hkeys _ (by simp [EncoderConfig.keyNames])
  have h2 : cfg.LevelKey = "" := hkeys _ (by simp [EncoderConfig.keyNames])
  have h3 : cfg.TimeKey = "" := hkeys _ (by simp [EncoderConfig.keyNames])
  have h4 : cfg.NameKey = "" := hkeys _ (by simp [EncoderConfig.keyNames])
  have h5 : cfg.CallerKey = "" := hkeys _ (by simp [EncoderConfig.keyNames])
  have h6 : cfg.FunctionKey = "" := hkeys _ (by simp [EncoderConfig.keyNames])
  simp [metaMap, h1, h2, h3, h4, h5, h6]

/-- C14 (empty key names omit the metadata). When the seven key names of the configuration are
all empty, then for every base encoder (its map holding each key once), every entry and every
list `F` of entry fields, `EncodeEntry` returns no error and a map that is the base map overlaid
with the encodings of `F`: under every key, the empty key included, it holds what the base map
with `F` merged into it holds, and it holds each key once. -/
theorem EncodeEntry_empty_key_names (rt : Runtime) (b : AliYunEncoder) (ent : Entry)
    (F : List Field) (h : Heap) (hn : (FieldMap.keys (Heap.read h b.m)).Nodup)
    (hkeys : ∀ k ∈ b.cfg.keyNames, k = "") :
    (b.EncodeEntry rt ent F h).1.2 = none
    ∧ (∀ k : String, FieldMap.lookup k (b.EncodeEntryMap rt ent F h)
        = FieldMap.lookup k (mergeFields rt b.cfg F (Heap.read h b.m)))
    ∧ FieldMap.lookup "" (b.EncodeEntryMap rt ent F h)
        = FieldMap.lookup "" (mergeFields rt b.cfg F (Heap.read h b.m))
    ∧ (FieldMap.keys (b.EncodeEntryMap rt ent F h)).Nodup := by
  have hs : b.cfg.StacktraceKey = "" := hkeys _ (by simp [EncoderConfig.keyNames])
  have hall : ∀ k : String, FieldMap.lookup k (b.EncodeEntryMap rt ent F h)
      = FieldMap.lookup k (mergeFields rt b.cfg F (Heap.read h b.m)) := by
    intro k
    rw [AliYunEncoder.EncodeEntryMap_eq]
    have hfin : finalMap rt b.cfg ent F (b.cloneMap h)
        = mergeFields rt b.cfg F (mergeFields rt b.cfg F (b.cloneMap h)) := by
      simp [finalMap, hs, metaMap_empty_keys rt b.cfg ent _ hkeys]
    rw [hfin, lookup_mergeFields_twice rt b.cfg F k (b.cloneMap h) _ (fun _ => rfl)]
    by_cases hk : k ∈ fieldKeys rt b.cfg F
    · exact lookup_mergeFields_of_mem rt b.cfg F k _ _ hk
    · rw [lookup_mergeFields_ne _ _ _ _ _ hk, lookup_mergeFields_ne _ _ _ _ _ hk,
        AliYunEncoder.lookup_cloneMap b h k hn]
  refine ⟨?_, hall, hall "", AliYunEncoder.nodup_EncodeEntryMap rt b ent F h⟩
  rw [AliYunEncoder.EncodeEntry_eq]

/-- An instance of C14: the empty configuration over the map `svc = api`, an entry with a
message, a logger name and a stack, and the field `user = bob`. -/
theorem EncodeEntry_empty_key_names_witness :
    FieldMap.lookup "" ((sampleEncoder emptyConfig).EncodeEntryMap sampleRuntime
        { plainEntry ErrorLevel "boom" with LoggerName := "root", Stack := "trace" }
        [stringField "user" "bob"] sampleHeap)
      = FieldMap.lookup "" (mergeFields sampleRuntime emptyConfig [stringField "user" "bob"]
          (Heap.read sampleHeap 0))
    ∧ (FieldMap.keys ((sampleEncoder emptyConfig).EncodeEntryMap sampleRuntime
        { plainEntry ErrorLevel "boom" with LoggerName := "root", Stack := "trace" }
        [stringField "user" "bob"] sampleHeap)).Nodup :=
  ⟨(EncodeEntry_empty_key_names sampleRuntime (sampleEncoder emptyConfig)
      { plainEntry ErrorLevel "boom" with LoggerName := "root", Stack := "trace" }
      [stringField "user" "bob"] sampleHeap (by decide) (by decide)).2.2.1,
   (EncodeEntry_empty_key_names sampleRuntime (sampleEncoder emptyConfig)
      { plainEntry ErrorLevel "boom" with LoggerName := "root", Stack := "trace" }
      [stringField "user" "bob"] sampleHeap (by decide) (by decide)).2.2.2⟩

theorem AliYunEncoder.EncodeEntrySingleMerge_eq (rt : Runtime) (a : AliYunEncoder) (ent : Entry)
    (fields : List Field) (h : Heap) :
    a.EncodeEntrySingleMerge rt ent fields h
      = ((h.length, none), h ++ [finalMapSingleMerge rt a.cfg ent fields (a.cloneMap h)]) := by
  unfold AliYunEncoder.EncodeEntrySingleMerge
  lift_lets
  intro c final h1 level0 level h2 h3 name0 name h4 h5 h6 h7 h9
  have hf : final = { cfg := a.cfg, m := h.length } := rfl
  obtain ⟨m1, hm1, e1⟩ : ∃ m1, m1 = mergeFields rt a.cfg fields (a.cloneMap h) ∧ h1 = h ++ [m1] :=
    ⟨_, rfl, addFields_append_new rt a.cfg fields h _⟩
  obtain ⟨m2, hm2, e2⟩ : ∃ m2, m2 = (if a.cfg.LevelKey ≠ "" then
      FieldMap.insert a.cfg.LevelKey level m1 else m1) ∧ h2 = h ++ [m2] := by
    refine ⟨_, rfl, ?_⟩
    show (if a.cfg.LevelKey ≠ "" then final.AddString a.cfg.LevelKey level h1 else h1) = _
    rw [e1, hf]
    split <;> simp [AddString_append_new]
  obtain ⟨m3, hm3, e3⟩ : ∃ m3, m3 = (if a.cfg.TimeKey ≠ "" then
      FieldMap.insert a.cfg.TimeKey (match a.cfg.EncodeTime with
        | some encodeTime => encodeTime ent.Time
        | none => rt.appendTime ent.Time) m2 else m2) ∧ h3 = h ++ [m3] := by
    refine ⟨_, rfl, ?_⟩
    show (if a.cfg.TimeKey ≠ "" then final.AddTime rt a.cfg.TimeKey ent.Time h2 else h2) = _
    rw [e2, hf]
    split
    · simp only [AliYunEncoder.AddTime]
      cases a.cfg.EncodeTime <;> simp [AddString_append_new]
    · rfl
  obtain ⟨m4, hm4, e4⟩ : ∃ m4, m4 = (if ent.LoggerName ≠ "" ∧ a.cfg.NameKey ≠ "" then
      FieldMap.insert a.cfg.NameKey name m3 else m3) ∧ h4 = h ++ [m4] := by
    refine ⟨_, rfl, ?_⟩
    show (if ent.LoggerName ≠ "" ∧ a.cfg.NameKey ≠ "" then
      final.AddString a.cfg.NameKey name h3 else h3) = _
    rw [e3, hf]
    split <;> simp [AddString_append_new]
  obtain ⟨m5, hm5, e5⟩ : ∃ m5, m5 = (if a.cfg.CallerKey ≠ "" then
      match a.cfg.EncodeCaller with
      | some encodeCaller => FieldMap.insert a.cfg.CallerKey (encodeCaller ent.Caller) m4
      | none => m4
      else m4) ∧ h5 = h ++ [m5] := by
    refine ⟨_, rfl, ?_⟩
    show (if a.cfg.CallerKey ≠ "" then
      match a.cfg.EncodeCaller with
      | some encodeCaller => final.AddString a.cfg.CallerKey (encodeCaller ent.Caller) h4
      | none => h4
      else h4) = _
    rw [e4, hf]
    split
    · cases a.cfg.EncodeCaller <;> simp [AddString_append_new]
    · rfl
  obtain ⟨m6, hm6, e6⟩ : ∃ m6, m6 = (if ent.Caller.Defined then
      (if a.cfg.FunctionKey ≠ "" then FieldMap.insert a.cfg.FunctionKey ent.Caller.Function m5
        else m5)
      else m4) ∧ h6 = h ++ [m6] := by
    refine ⟨_, rfl, ?_⟩
    show (if ent.Caller.Defined = true then
      (if a.cfg.FunctionKey ≠ "" then final.AddString a.cfg.FunctionKey ent.Caller.Function h5
        else h5)
      else h4) = _
    rw [e4, e5, hf]
    split
    · split <;> simp [AddString_append_new]
    · rfl
  obtain ⟨m7, hm7, e7⟩ : ∃ m7, m7 = (if a.cfg.MessageKey ≠ "" then
      FieldMap.insert a.cfg.MessageKey ent.Message m6 else m6) ∧ h7 = h ++ [m7] := by
    refine ⟨_, rfl, ?_⟩
    show (if a.cfg.MessageKey ≠ "" then final.AddString a.cfg.MessageKey ent.Message h6
      else h6) = _
    rw [e6, hf]
    split <;> simp [AddString_append_new]
  obtain ⟨m9, hm9, e9⟩ : ∃ m9, m9 = (if ent.Stack ≠ "" ∧ a.cfg.StacktraceKey ≠ "" then
      FieldMap.insert a.cfg.StacktraceKey ent.Stack m7 else m7) ∧ h9 = h ++ [m9] := by
    refine ⟨_, rfl, ?_⟩
    show (if ent.Stack ≠ "" ∧ a.cfg.StacktraceKey ≠ "" then
      final.AddString a.cfg.StacktraceKey ent.Stack h7 else h7) = _
    rw [e7, hf]
    split <;> simp [AddString_append_new]
  rw [e9]
  have hfin : m9 = finalMapSingleMerge rt a.cfg ent fields (a.cloneMap h) := by
    subst hm1 hm2 hm3 hm4 hm5 hm6 hm7 hm9
    rfl
  rw [hfin]
  rfl

theorem AliYunEncoder.EncodeEntrySingleMergeMap_eq (rt : Runtime) (a : AliYunEncoder)
    (ent : Entry) (fields : List Field) (h : Heap) :
    a.EncodeEntrySingleMergeMap rt ent fields h
      = finalMapSingleMerge rt a.cfg ent fields (a.cloneMap h) := by
  simp only [AliYunEncoder.EncodeEntrySingleMergeMap, AliYunEncoder.EncodeEntrySingleMerge_eq,
    Heap.read_append_new]

theorem lookup_metaMap_ne_meta (rt : Runtime) (cfg : EncoderConfig) (ent : Entry) (k : String)
    (m : FieldMap) (hk : k ∉ cfg.metaKeyNames) :
    FieldMap.lookup k (metaMap rt cfg ent m) = FieldMap.lookup k m := by
  have hsame : metaMap rt cfg ent m
      = metaMap rt { cfg with StacktraceKey := cfg.MessageKey } ent m := rfl
  rw [hsame]
  apply lookup_metaMap_ne
  intro hmem
  apply hk
  simp only [EncoderConfig.keyNames, List.mem_cons, List.mem_singleton, List.not_mem_nil,
    or_false] at hmem
  simp only [EncoderConfig.metaKeyNames, List.mem_cons, List.mem_singleton, List.not_mem_nil,
    or_false]
  tauto

/-- C18, as stated, fails: with level key `level` and the entry field `level = custom`, the map
that `EncodeEntry` returns holds `level = custom` (the second merge overwrites the level), while
the procedure with the second merge removed returns `level = info`. -/
theorem second_merge_is_not_a_no_op :
    FieldMap.lookup "level" ((sampleEncoder msgLevelConfig).EncodeEntryMap sampleRuntime
        (plainEntry InfoLevel "hello") [stringField "level" "custom"] emptyHeap)
      = some "custom"
    ∧ FieldMap.lookup "level" ((sampleEncoder msgLevelConfig).EncodeEntrySingleMergeMap
        sampleRuntime (plainEntry InfoLevel "hello") [stringField "level" "custom"] emptyHeap)
      = some "info"
    ∧ (sampleEncoder msgLevelConfig).EncodeEntryMap sampleRuntime
        (plainEntry InfoLevel "hello") [stringField "level" "custom"] emptyHeap
      ≠ (sampleEncoder msgLevelConfig).EncodeEntrySingleMergeMap sampleRuntime
        (plainEntry InfoLevel "hello") [stringField "level" "custom"] emptyHeap := by
  decide

/-- C18 amended. The second field merge is a no-op when no field writes under a metadata key:
for every base encoder, entry and list `F` of entry fields such that no key written for `F` is
one of the configured message, level, time, name, caller or function key names, the map that
`EncodeEntry` returns holds under every key what the map returned by the same procedure with the
second merge removed holds. -/
theorem second_merge_no_op_without_collision (rt : Runtime) (b : AliYunEncoder) (ent : Entry)
    (F : List Field) (h : Heap)
    (hdis : ∀ k ∈ fieldKeys rt b.cfg F, k ∉ b.cfg.metaKeyNames) :
    ∀ k : String, FieldMap.lookup k (b.EncodeEntryMap rt ent F h)
      = FieldMap.lookup k (b.EncodeEntrySingleMergeMap rt ent F h) := by
  intro k
  rw [AliYunEncoder.EncodeEntryMap_eq, AliYunEncoder.EncodeEntrySingleMergeMap_eq]
  have hbody : FieldMap.lookup k
      (mergeFields rt b.cfg F (metaMap rt b.cfg ent (mergeFields rt b.cfg F (b.cloneMap h))))
      = FieldMap.lookup k (metaMap rt b.cfg ent (mergeFields rt b.cfg F (b.cloneMap h))) := by
    by_cases hk : k ∈ fieldKeys rt b.cfg F
    · rw [lookup_mergeFields_of_mem rt b.cfg F k _ (b.cloneMap h) hk,
        lookup_metaMap_ne_meta rt b.cfg ent k _ (hdis k hk)]
    · rw [lookup_mergeFields_ne _ _ _ _ _ hk]
  show FieldMap.lookup k (if ent.Stack ≠ "" ∧ b.cfg.StacktraceKey ≠ "" then _ else _)
    = FieldMap.lookup k (if ent.Stack ≠ "" ∧ b.cfg.StacktraceKey ≠ "" then _ else _)
  split
  · by_cases hs : b.cfg.StacktraceKey = k
    · rw [hs, FieldMap.lookup_insert_self, FieldMap.lookup_insert_self]
    · rw [FieldMap.lookup_insert_ne _ _ _ _ hs, FieldMap.lookup_insert_ne _ _ _ _ hs]
      exact hbody
  · exact hbody

/-- An instance of the amended C18: the field `user = alice` with message key `msg` and level
key `level`. -/
theorem second_merge_no_op_without_collision_witness :
    FieldMap.lookup "user" ((sampleEncoder msgLevelConfig).EncodeEntryMap sampleRuntime
        (plainEntry InfoLevel "hello") [stringField "user" "alice"] sampleHeap)
      = FieldMap.lookup "user" ((sampleEncoder msgLevelConfig).EncodeEntrySingleMergeMap
          sampleRuntime (plainEntry InfoLevel "hello") [stringField "user" "alice"] sampleHeap) :=
  second_merge_no_op_without_collision sampleRuntime (sampleEncoder msgLevelConfig)
    (plainEntry InfoLevel "hello") [stringField "user" "alice"] sampleHeap (by decide) "user"

theorem cloneMap_of_empty (b : AliYunEncoder) (h : Heap) (hb : Heap.read h b.m = []) :
    b.cloneMap h = [] := by
  simp only [AliYunEncoder.cloneMap, hb]
  rfl

theorem mergeFields_nil (rt : Runtime) (cfg : EncoderConfig) (m : FieldMap) :
    mergeFields rt cfg [] m = m := rfl

/-- C15 (the caller rule). With an empty base map, no entry fields and a configuration in which
only the caller key and the function key are non-empty, and distinct: (i) the returned map is
empty when the caller of the entry is not defined; (ii) when it is defined the map holds the
function name of the caller under the function key; (iii) under the caller key it holds the
output of the caller formatter when the caller is defined and a formatter is configured, and
nothing when no caller formatter is configured or the caller is not defined. -/
theorem EncodeEntry_caller_rule (rt : Runtime) (b : AliYunEncoder) (ent : Entry) (h : Heap)
    (hb : Heap.read h b.m = [])
    (hother : b.cfg.MessageKey = "" ∧ b.cfg.LevelKey = "" ∧ b.cfg.TimeKey = ""
      ∧ b.cfg.NameKey = "" ∧ b.cfg.StacktraceKey = "")
    (hc : b.cfg.CallerKey ≠ "") (hf : b.cfg.FunctionKey ≠ "")
    (hcf : b.cfg.CallerKey ≠ b.cfg.FunctionKey) :
    (ent.Caller.Defined = false → b.EncodeEntryMap rt ent [] h = [])
    ∧ (ent.Caller.Defined = true →
        FieldMap.lookup b.cfg.FunctionKey (b.EncodeEntryMap rt ent [] h)
          = some ent.Caller.Function)
    ∧ (ent.Caller.Defined = true → ∀ g : EntryCaller → String, b.cfg.EncodeCaller = some g →
        FieldMap.lookup b.cfg.CallerKey (b.EncodeEntryMap rt ent [] h) = some (g ent.Caller))
    ∧ (b.cfg.EncodeCaller = none →
        FieldMap.lookup b.cfg.CallerKey (b.EncodeEntryMap rt ent [] h) = none)
    ∧ (ent.Caller.Defined = false →
        FieldMap.lookup b.cfg.CallerKey (b.EncodeEntryMap rt ent [] h) = none) := by
  obtain ⟨h1, h2, h3, h4, h5⟩ := hother
  have hmap : b.EncodeEntryMap rt ent [] h
      = if ent.Caller.Defined = true then
          FieldMap.insert b.cfg.FunctionKey ent.Caller.Function
            (match b.cfg.EncodeCaller with
              | some g => FieldMap.insert b.cfg.CallerKey (g ent.Caller) []
              | none => [])
        else [] := by
    rw [AliYunEncoder.EncodeEntryMap_eq, cloneMap_of_empty b h hb]
    simp only [finalMap, metaMap, mergeFields_nil, h1, h2, h3, h4, h5, hc, hf, ne_eq,
      not_true_eq_false, and_false, if_false, not_false_eq_true, if_true]
  rw [hmap]
  refine ⟨?_, ?_, ?_, ?_, ?_⟩
  · intro hd
    simp [hd]
  · intro hd
    simp only [hd, if_true, FieldMap.lookup_insert_self]
  · intro hd g hg
    simp only [hd, if_true, hg]
    rw [FieldMap.lookup_insert_ne _ _ _ _ (Ne.symm hcf), FieldMap.lookup_insert_self]
  · intro hg
    simp only [hg]
    split
    · rw [FieldMap.lookup_insert_ne _ _ _ _ (Ne.symm hcf)]
      rfl
    · rfl
  · intro hd
    simp [hd, FieldMap.lookup]

/-- An instance of C15: caller key `caller`, function key `func`, with and without a caller
formatter, on an entry whose caller is `main.run`. -/
theorem EncodeEntry_caller_rule_witness :
    FieldMap.lookup "func" ((sampleEncoder (callerConfig none)).EncodeEntryMap sampleRuntime
        callerEntry [] emptyHeap) = some "main.run"
    ∧ FieldMap.lookup "caller" ((sampleEncoder (callerConfig none)).EncodeEntryMap sampleRuntime
        callerEntry [] emptyHeap) = none
    ∧ FieldMap.lookup "caller" ((sampleEncoder (callerConfig (some (fun c => c.File)))).EncodeEntryMap
        sampleRuntime callerEntry [] emptyHeap) = some "main.go"
    ∧ (sampleEncoder (callerConfig none)).EncodeEntryMap sampleRuntime
        (plainEntry InfoLevel "hello") [] emptyHeap = [] :=
  ⟨(EncodeEntry_caller_rule sampleRuntime (sampleEncoder (callerConfig none)) callerEntry
      emptyHeap rfl (by decide) (by decide) (by decide) (by decide)).2.1 rfl,
   (EncodeEntry_caller_rule sampleRuntime (sampleEncoder (callerConfig none)) callerEntry
      emptyHeap rfl (by decide) (by decide) (by decide) (by decide)).2.2.2.1 rfl,
   (EncodeEntry_caller_rule sampleRuntime (sampleEncoder (callerConfig (some (fun c => c.File))))
      callerEntry emptyHeap rfl (by decide) (by decide) (by decide) (by decide)).2.2.1 rfl
      (fun c => c.File) rfl,
   (EncodeEntry_caller_rule sampleRuntime (sampleEncoder (callerConfig none))
      (plainEntry InfoLevel "hello") emptyHeap rfl (by decide) (by decide) (by decide)
      (by decide)).1 rfl⟩

/-- C19 (the stack trace is written last and wins). For every base encoder, every list of entry
fields and every configuration with a non-empty stack trace key, the map returned for an entry
with a non-empty stack text holds that text under the stack trace key, whatever else was written
under that key, and under every other key it holds what the map holds before the stack trace
is written; for an entry with an empty stack text the returned map is the map as it is after the
second merge: nothing is written for the stack trace. -/
theorem EncodeEntry_stack_wins (rt : Runtime) (b : AliYunEncoder) (ent : Entry)
    (F : List Field) (h : Heap) (hk : b.cfg.StacktraceKey ≠ "") :
    (ent.Stack ≠ "" →
      FieldMap.lookup b.cfg.StacktraceKey (b.EncodeEntryMap rt ent F h) = some ent.Stack
      ∧ ∀ k : String, k ≠ b.cfg.StacktraceKey →
          FieldMap.lookup k (b.EncodeEntryMap rt ent F h)
            = FieldMap.lookup k (mergeFields rt b.cfg F
                (metaMap rt b.cfg ent (mergeFields rt b.cfg F (b.cloneMap h)))))
    ∧ (ent.Stack = "" →
      b.EncodeEntryMap rt ent F h
        = mergeFields rt b.cfg F (metaMap rt b.cfg ent (mergeFields rt b.cfg F (b.cloneMap h)))) := by
  rw [AliYunEncoder.EncodeEntryMap_eq]
  constructor
  · intro hs
    have hfin : finalMap rt b.cfg ent F (b.cloneMap h)
        = FieldMap.insert b.cfg.StacktraceKey ent.Stack (mergeFields rt b.cfg F
            (metaMap rt b.cfg ent (mergeFields rt b.cfg F (b.cloneMap h)))) := by
      simp [finalMap, hs, hk]
    rw [hfin]
    refine ⟨FieldMap.lookup_insert_self _ _ _, ?_⟩
    intro k hne
    rw [FieldMap.lookup_insert_ne _ _ _ _ (Ne.symm hne)]
  · intro hs
    simp [finalMap, hs]

/-- An instance of C19: the stack trace key is `msg`, also the message key, and the entry field
`msg = field` uses it too; the stack text wins. -/
theorem EncodeEntry_stack_wins_witness :
    FieldMap.lookup "msg"
      ((sampleEncoder { msgLevelConfig with StacktraceKey := "msg" }).EncodeEntryMap sampleRuntime
        { plainEntry InfoLevel "hello" with Stack := "trace" } [stringField "msg" "field"]
        sampleHeap) = some "trace" :=
  ((EncodeEntry_stack_wins sampleRuntime (sampleEncoder { msgLevelConfig with StacktraceKey := "msg" })
      { plainEntry InfoLevel "hello" with Stack := "trace" } [stringField "msg" "field"]
      sampleHeap (by decide)).1 (by decide)).1

/-- C20 (Write transmits the flat map). For an adapter built by `NewAliYunCore` with a producer,
every entry and field list: `Write` makes one call of `SendLog` on that producer with the
project, log store, topic and source of the configuration given at construction and returns
what the call answers; the content list of the record has as many pairs as the map returned by
`EncodeEntry` has keys, no key occurs twice in it, every pair holds the value the map has under
the key of the pair, and every binding of the map is one of the pairs. -/
theorem Write_transmits_flat_map (rt : Runtime) (enc : AliYunEncoder) (p : ProducerPtr)
    (config : ProducerConfig) (ent : Entry) (F : List Field) (now : Int) (h : Heap)
    (t : Transport) :
    ∃ sub : Submission,
      ((NewAliYunCore enc (some p) config).Write rt ent F now h t).2.2.sent = t.sent ++ [sub]
      ∧ ((NewAliYunCore enc (some p) config).Write rt ent F now h t).1 = .returned (t.reply sub)
      ∧ sub.producer = p ∧ sub.project = config.ProjectName ∧ sub.logstore = config.LogStore
      ∧ sub.topic = config.Topic ∧ sub.source = config.Source
      ∧ sub.log.Contents.length = (FieldMap.keys (enc.EncodeEntryMap rt ent F h)).length
      ∧ (sub.log.Contents.map LogContent.Key).Nodup
      ∧ (∀ c ∈ sub.log.Contents,
          FieldMap.lookup c.Key (enc.EncodeEntryMap rt ent F h) = some c.Value)
      ∧ (∀ k v : String, FieldMap.lookup k (enc.EncodeEntryMap rt ent F h) = some v →
          ({ Key := k, Value := v } : LogContent) ∈ sub.log.Contents) := by
  have hn := AliYunEncoder.nodup_EncodeEntryMap rt enc ent F h
  rw [AliYunCore.Write_eq rt (NewAliYunCore enc (some p) config) ent F now h t p rfl]
  refine ⟨_, rfl, rfl, rfl, rfl, rfl, rfl, rfl, ?_, ?_, ?_, ?_⟩
  · simp [NewAliYunCore, FieldMap.keys]
  · simpa [NewAliYunCore, FieldMap.keys, List.map_map, Function.comp_def] using hn
  · intro c hc
    simp only [NewAliYunCore, List.mem_map] at hc
    obtain ⟨kv, hkv, rfl⟩ := hc
    exact FieldMap.lookup_of_mem kv.1 kv.2 _ hn hkv
  · intro k v hl
    simp only [NewAliYunCore, List.mem_map]
    exact ⟨(k, v), FieldMap.mem_of_lookup k v _ hl, rfl⟩

end ZapAliyun
